import Mathlib

/-!
Verification of the thread scheduling, timer sleep and interrupt dispatch
core of a small teaching kernel. The definitions below are shallow
embeddings of the C functions in src/devices/timer.c, src/threads/thread.c
and src/threads/interrupt.c; each definition names the C function it
translates. Machine integers: the 64 bit tick counter and wake ticks are
Int (no overflow is reachable in the properties below), the unsigned
per slice counter is Nat reduced mod 2 ^ 32. A C function whose ASSERT can
fire is modelled as returning Option, with none for the fatal assertion.
-/

/-- Thread states, from enum thread_status in threads/thread.h
(THREAD_RUNNING, THREAD_READY, THREAD_BLOCKED, THREAD_DYING), with an extra
state `unused` standing for a page that holds no thread yet. -/
inductive TStatus where
  | unused
  | running
  | ready
  | blocked
  | dying
  deriving DecidableEq

namespace Timer

/-- struct sleep_thread from devices/timer.c: the absolute wake tick, the
sleeping thread (as a numeric id), and the priority captured at insertion
time (the field added to the struct). -/
structure SleepEntry where
  wake : Int
  tid : Nat
  prio : Int
  deriving DecidableEq

/-- less_wake_tick from devices/timer.c: entries are ordered by ascending
wake tick; on equal wake ticks the entry with the higher captured priority
comes first. -/
def less_wake_tick (a b : SleepEntry) : Bool :=
  if a.wake = b.wake then decide (b.prio < a.prio) else decide (a.wake < b.wake)

/-- list_insert_ordered from the kernel list library: insert e before the
first element x with less e x, at the end if there is none. -/
def list_insert_ordered (less : α → α → Bool) (e : α) : List α → List α
  | [] => [e]
  | x :: xs => if less e x then e :: x :: xs else x :: list_insert_ordered less e xs

/-- The loop of wake_sleeping_threads from devices/timer.c: pop entries off
the queue front while their wake tick has arrived (wake_tick <= ticks),
stopping at the first entry with wake_tick > ticks. Returns (remaining
queue, popped entries in pop order). -/
def wakeAux (t : Int) : List SleepEntry → List SleepEntry × List SleepEntry
  | [] => ([], [])
  | e :: rest =>
    if t < e.wake then (e :: rest, [])
    else ((wakeAux t rest).1, e :: (wakeAux t rest).2)

/-- State of the timer subsystem of devices/timer.c: the tick counter, the
sleep queue (sleep_list), the side list of woken entries (awake_list), each
thread's status and priority, and a log recording every unblock the wake
scan performs as (tick counter value at the unblock, thread id). -/
structure TState where
  ticks : Int
  sleepq : List SleepEntry
  awake : List SleepEntry
  status : Nat → TStatus
  log : List (Int × Nat)
  prio : Nat → Int

/-- add_sleeping_thread from devices/timer.c, called by thread t: allocate
an entry carrying the wake tick and the calling thread's own priority
(thread_get_priority) and insert it into the sleep queue ordered by
less_wake_tick. -/
def add_sleeping_thread (t : Nat) (wake : Int) (s : TState) : TState :=
  { s with sleepq := list_insert_ordered less_wake_tick ⟨wake, t, s.prio t⟩ s.sleepq }

/-- timer_sleep from devices/timer.c, called by thread c: a request of
n <= 0 ticks returns at once; otherwise the absolute wake tick is
timer_ticks () + n, an entry is inserted, and the caller blocks itself. -/
def timer_sleep (c : Nat) (n : Int) (s : TState) : TState :=
  if n ≤ 0 then s
  else
    let s1 := add_sleeping_thread c (s.ticks + n) s
    { s1 with status := fun x => if x = c then .blocked else s1.status x }

/-- timer_interrupt from devices/timer.c: ticks++ followed by
wake_sleeping_threads, which pops every due entry off the sleep queue
front, unblocks its thread (thread_unblock, BLOCKED to READY) and pushes
the entry onto awake_list instead of freeing it. Each unblock is recorded
in the log with the current tick counter value. -/
def timer_interrupt (s : TState) : TState :=
  { s with
    ticks := s.ticks + 1
    sleepq := (wakeAux (s.ticks + 1) s.sleepq).1
    awake := s.awake ++ (wakeAux (s.ticks + 1) s.sleepq).2
    status := fun x =>
      if x ∈ ((wakeAux (s.ticks + 1) s.sleepq).2.map SleepEntry.tid) then .ready
      else s.status x
    log := s.log ++ (wakeAux (s.ticks + 1) s.sleepq).2.map
      (fun e => (s.ticks + 1, e.tid)) }

/-- cleanup_awake_list from devices/timer.c: frees every entry of
awake_list. No function of this core calls it (tstep below never invokes
it); it exists for an external caller to run outside interrupt context. -/
def cleanup_awake_list (s : TState) : TState :=
  { s with awake := [] }

/-- The timer events this core performs: some thread calling timer_sleep,
or a timer interrupt firing. cleanup_awake_list is not among them because
no function in the core invokes it. -/
inductive TEv where
  | sleepE (c : Nat) (n : Int)
  | tickE

/-- One core timer event. -/
def tstep (s : TState) : TEv → TState
  | .sleepE c n => timer_sleep c n s
  | .tickE => timer_interrupt s

/-- A sequence of core timer events. -/
def trun (s : TState) : List TEv → TState
  | [] => s
  | e :: es => trun (tstep s e) es

/-- k consecutive timer interrupts. -/
def tickIter : Nat → TState → TState
  | 0, s => s
  | k + 1, s => timer_interrupt (tickIter k s)

/-- The sleep queue invariant established by list_insert_ordered: no
element is strictly less (in the less_wake_tick order) than an element
placed before it. -/
def SortedQ (q : List SleepEntry) : Prop :=
  q.Pairwise (fun a b => less_wake_tick b a = false)

/-- Two sleepers at tick T: thread A calls timer_sleep N, then thread B
calls timer_sleep M, before the next interrupt fires. -/
def sleepScenario (T N M : Int) (A B : Nat) (st0 : Nat → TStatus)
    (pr : Nat → Int) : TState :=
  timer_sleep B M (timer_sleep A N ⟨T, [], [], st0, [], pr⟩)

end Timer

namespace Kernel

/-- The id of the bootstrap thread (initial_thread in threads/thread.c, the
thread that runs main, set up by thread_init). -/
def initialTid : Nat := 0

/-- Modelled from the spec: threads/thread.h is not among the source files;
the spec states priority ∈ [PRI_MIN, PRI_MAX] and init_thread asserts
PRI_MIN <= priority <= PRI_MAX. These are the standard bounds, with
PRI_DEFAULT the priority thread_init gives the bootstrap thread. -/
def PRI_MIN : Int := 0

/-- Modelled from the spec: default priority (see PRI_MIN). -/
def PRI_DEFAULT : Int := 31

/-- Modelled from the spec: maximum priority (see PRI_MIN). -/
def PRI_MAX : Int := 63

/-- TIME_SLICE from threads/thread.c: timer ticks given to each thread. -/
def TIME_SLICE : Nat := 4

/-- thread_tick from threads/thread.c, the per tick scheduler hook: the
per slice counter thread_ticks (a C unsigned) is incremented, and when the
incremented value reaches TIME_SLICE a deferred yield is requested via
intr_yield_on_return. Returns (new counter, yield requested). -/
def thread_tick (thread_ticks : Nat) : Nat × Bool :=
  let tt := (thread_ticks + 1) % 2 ^ 32
  (tt, decide (TIME_SLICE ≤ tt))

/-- k timer ticks after a fresh time slice (counter reset to 0 by
schedule): result is (counter value, whether any of the k ticks requested
a yield). -/
def sliceIter : Nat → Nat × Bool
  | 0 => (0, false)
  | k + 1 =>
    let p := sliceIter k
    let q := thread_tick p.1
    (q.1, p.2 || q.2)

/-- Scheduler state of threads/thread.c: the running thread (curr), each
thread's status and priority, the ready queue (ready_list), the
destruction request list (destruction_req), the threads currently blocked
inside timer_sleep, a log of the page frees performed by do_schedule as
(freeing thread, freed thread) pairs, the registered idle thread
(idle_thread, none until the idle thread stores itself there), and
thread_ticks, the ticks since the last switch. -/
structure KState where
  curr : Nat
  status : Nat → TStatus
  prio : Nat → Int
  readyq : List Nat
  dreq : List Nat
  sleepers : List Nat
  freeLog : List (Nat × Nat)
  idleT : Option Nat
  sliceTicks : Nat

/-- Overwrite one thread's status. -/
def setStatus (s : KState) (t : Nat) (st : TStatus) : KState :=
  { s with status := fun x => if x = t then st else s.status x }

/-- next_thread_to_run from threads/thread.c: the ready queue head, or the
idle thread when the ready queue is empty. -/
def next_thread_to_run (s : KState) : Option Nat :=
  match s.readyq with
  | [] => s.idleT
  | t :: _ => some t

/-- The body of schedule from threads/thread.c once next is chosen: pop
next off the ready queue, mark it RUNNING, reset thread_ticks to 0; if the
outgoing thread differs from next, is DYING and is not the bootstrap
thread, push it onto destruction_req instead of freeing it; transfer to
next. -/
def schedule_core (s : KState) (next : Nat) (rq : List Nat) : KState :=
  let s1 := setStatus { s with readyq := rq, sliceTicks := 0 } next .running
  let s2 :=
    if s.curr ≠ next ∧ s.status s.curr = .dying ∧ s.curr ≠ initialTid then
      { s1 with dreq := s1.dreq ++ [s.curr] }
    else s1
  { s2 with curr := next }

/-- schedule from threads/thread.c. ASSERT (curr->status != THREAD_RUNNING)
is the none case; when the ready queue is empty and no idle thread exists
the ASSERT (is_thread (next)) on the null next is the none case. -/
def schedule (s : KState) : Option KState :=
  if s.status s.curr = .running then none
  else
    match s.readyq with
    | t :: r => some (schedule_core s t r)
    | [] => s.idleT.map fun i => schedule_core s i []

/-- do_schedule from threads/thread.c: ASSERT the current thread is
RUNNING, free (palloc_free_page) every page on destruction_req, set the
current thread's status to st, and call schedule. Every free is recorded
in the log as (current thread, freed thread). -/
def do_schedule (st : TStatus) (s : KState) : Option KState :=
  if s.status s.curr = .running then
    let s1 :=
      { s with
        freeLog := s.freeLog ++ s.dreq.map fun v => (s.curr, v)
        dreq := [] }
    schedule (setStatus s1 s.curr st)
  else none

/-- thread_unblock from threads/thread.c: ASSERT (t->status ==
THREAD_BLOCKED) is the none case; otherwise t is appended at the tail of
the ready queue and marked READY. No scheduling happens: the caller keeps
running. -/
def thread_unblock (t : Nat) (s : KState) : Option KState :=
  if s.status t = .blocked then
    some (setStatus { s with readyq := s.readyq ++ [t] } t .ready)
  else none

/-- thread_block from threads/thread.c: mark the current thread BLOCKED
and call schedule directly (no destruction drain). The thread_current
ASSERT that the caller is RUNNING is the none case. -/
def thread_block (s : KState) : Option KState :=
  if s.status s.curr = .running then schedule (setStatus s s.curr .blocked)
  else none

/-- thread_yield from threads/thread.c: unless the current thread is the
idle thread, append it at the ready queue tail; then do_schedule
(THREAD_READY). -/
def thread_yield (s : KState) : Option KState :=
  if s.status s.curr = .running then
    let s1 :=
      if s.idleT = some s.curr then s
      else { s with readyq := s.readyq ++ [s.curr] }
    do_schedule .ready s1
  else none

/-- thread_exit from threads/thread.c: do_schedule (THREAD_DYING); never
returns. -/
def thread_exit (s : KState) : Option KState :=
  do_schedule .dying s

/-- init_thread from threads/thread.c: ASSERT (PRI_MIN <= priority &&
priority <= PRI_MAX) is the none case; the thread is zeroed, marked
BLOCKED and given the priority. -/
def init_thread (t : Nat) (p : Int) (s : KState) : Option KState :=
  if PRI_MIN ≤ p ∧ p ≤ PRI_MAX then
    some { setStatus s t .blocked with prio := fun x => if x = t then p else s.prio x }
  else none

/-- thread_create from threads/thread.c on a fresh page t: init_thread then
thread_unblock. The guard that t is unused models palloc_get_page handing
out a page that holds no live thread. -/
def thread_create (t : Nat) (p : Int) (s : KState) : Option KState :=
  if s.status t = .unused then (init_thread t p s).bind (thread_unblock t)
  else none

/-- thread_set_priority from threads/thread.c: store new_priority into the
current thread's priority field. There is no clamping and no assertion on
the value. -/
def thread_set_priority (p : Int) (s : KState) : Option KState :=
  if s.status s.curr = .running then
    some { s with prio := fun x => if x = s.curr then p else s.prio x }
  else none

/-- timer_sleep from devices/timer.c as it acts on the scheduler state:
the caller registers itself as a sleeper and blocks. The guard that the
caller is not the idle thread reflects the source: the body of idle () in
threads/thread.c only ever calls thread_block, never timer_sleep. -/
def timer_sleep (s : KState) : Option KState :=
  if s.idleT = some s.curr then none
  else if s.status s.curr = .running then
    thread_block { s with sleepers := s.sleepers ++ [s.curr] }
  else none

/-- One unblock performed by wake_sleeping_threads in devices/timer.c: a
due sleeper is removed from the sleep queue and passed to thread_unblock. -/
def wake_sleeper (t : Nat) (s : KState) : Option KState :=
  if t ∈ s.sleepers then thread_unblock t { s with sleepers := s.sleepers.erase t }
  else none

/-- The start of idle () in threads/thread.c: the idle thread stores itself
into idle_thread (idle_thread = thread_current ()), releases the startup
semaphore, and parks itself with thread_block. -/
def idle_register (s : KState) : Option KState :=
  if s.idleT = none then thread_block { s with idleT := some s.curr }
  else none

/-- The scheduler entry points reachable in this core. The guards on exit
and unblock reflect the source: idle () neither returns (so kernel_thread
never calls thread_exit on it) nor waits on anything, so no call site of
thread_unblock outside the wake scan ever receives the idle thread, and
the only code that unblocks a thread registered in the sleep queue is
wake_sleeping_threads (thread_create unblocks only a freshly allocated
thread; semaphore code hands thread_unblock a waiter of that semaphore,
never a sleep queue entry). -/
inductive KEv where
  | create (t : Nat) (p : Int)
  | yield
  | exit
  | sleep
  | wake (t : Nat)
  | unblock (t : Nat)
  | block
  | setPrio (p : Int)
  | idleReg

/-- One scheduler step. -/
def kstep (ev : KEv) (s : KState) : Option KState :=
  match ev with
  | .create t p => thread_create t p s
  | .yield => thread_yield s
  | .exit => if s.idleT = some s.curr then none else thread_exit s
  | .sleep => timer_sleep s
  | .wake t => wake_sleeper t s
  | .unblock t => if s.idleT = some t ∨ t ∈ s.sleepers then none else thread_unblock t s
  | .block => thread_block s
  | .setPrio p => thread_set_priority p s
  | .idleReg => idle_register s

/-- The state right after thread_init: the bootstrap thread runs, every
other page is unused, all queues are empty, no idle thread is registered. -/
def bootK : KState :=
  { curr := initialTid
    status := fun t => if t = initialTid then .running else .unused
    prio := fun _ => PRI_DEFAULT
    readyq := []
    dreq := []
    sleepers := []
    freeLog := []
    idleT := none
    sliceTicks := 0 }

/-- Run a sequence of scheduler steps; none when any step hits a fatal
assertion. -/
def runK (s : KState) : List KEv → Option KState
  | [] => some s
  | ev :: evs => (kstep ev s).bind fun s2 => runK s2 evs

/-- The scheduler state invariant, preserved by every step from bootK. -/
structure Inv (s : KState) : Prop where
  curr_running : s.status s.curr = .running
  running_unique : ∀ t, s.status t = .running → t = s.curr
  ready_nodup : s.readyq.Nodup
  ready_status : ∀ t ∈ s.readyq, s.status t = .ready
  dreq_status : ∀ t ∈ s.dreq, s.status t = .dying
  sleepers_nodup : s.sleepers.Nodup
  sleepers_status : ∀ t ∈ s.sleepers, s.status t = .blocked
  freeLog_ok : ∀ p ∈ s.freeLog, p.1 ≠ p.2 ∧ s.status p.2 = .dying
  idle_ok : ∀ i, s.idleT = some i →
    i ∉ s.readyq ∧ i ∉ s.sleepers ∧ i ∉ s.dreq ∧
    s.status i ≠ .dying ∧ s.status i ≠ .unused

/-- The invariant at the entry of schedule: the caller has already moved
the outgoing thread out of RUNNING. -/
structure PreInv (s : KState) : Prop where
  no_running : ∀ t, s.status t ≠ .running
  ready_nodup : s.readyq.Nodup
  ready_status : ∀ t ∈ s.readyq, s.status t = .ready
  dreq_status : ∀ t ∈ s.dreq, s.status t = .dying
  sleepers_nodup : s.sleepers.Nodup
  sleepers_status : ∀ t ∈ s.sleepers, s.status t = .blocked
  freeLog_ok : ∀ p ∈ s.freeLog, p.1 ≠ p.2 ∧ s.status p.2 = .dying
  idle_ok : ∀ i, s.idleT = some i →
    i ∉ s.readyq ∧ i ∉ s.sleepers ∧ i ∉ s.dreq ∧
    s.status i ≠ .dying ∧ s.status i ≠ .unused

end Kernel

namespace Intr

/-- struct intr_frame from threads/interrupt.h: the register and stack
state captured at interrupt entry (general registers, segment registers,
vector number, error code, rip, rsp, eflags). -/
structure IntrFrame where
  vec_no : Nat
  error_code : Nat
  rip : Nat
  rsp : Nat
  eflags : Nat
  rax : Nat
  rbx : Nat
  rcx : Nat
  rdx : Nat
  rbp : Nat
  rsi : Nat
  rdi : Nat
  r8 : Nat
  r9 : Nat
  r10 : Nat
  r11 : Nat
  r12 : Nat
  r13 : Nat
  r14 : Nat
  r15 : Nat
  es : Nat
  ds : Nat
  cs : Nat
  ss : Nat
  deriving DecidableEq

/-- intr_dump_frame from threads/interrupt.c: the values it prints, in
print order (vector, rip, cr2, error code, then every general register,
rsp, rip again, eflags and the segment registers). -/
def intr_dump_frame (cr2 : Nat) (f : IntrFrame) : List Nat :=
  [f.vec_no, f.rip, cr2, f.error_code,
   f.rax, f.rbx, f.rcx, f.rdx,
   f.rsp, f.rbp, f.rsi, f.rdi,
   f.rip, f.r8, f.r9, f.r10,
   f.r11, f.r12, f.r13, f.r14,
   f.r15, f.eflags, f.es, f.ds, f.cs, f.ss]

/-- What the handler dispatch in intr_handler does with a frame. -/
inductive DispatchOutcome where
  | handled
  | ignoredSpurious
  | panicked (dump : List Nat)
  deriving DecidableEq

/-- The dispatch step of intr_handler from threads/interrupt.c: call the
registered handler if any; with no handler, vectors 0x27 and 0x2f are
silently ignored as spurious; any other unregistered vector gets
intr_dump_frame followed by PANIC. -/
def intr_handler_dispatch (handlers : Nat → Bool) (cr2 : Nat) (f : IntrFrame) :
    DispatchOutcome :=
  if handlers f.vec_no then .handled
  else if f.vec_no = 0x27 ∨ f.vec_no = 0x2f then .ignoredSpurious
  else .panicked (intr_dump_frame cr2 f)

/-- The interrupt service flags of threads/interrupt.c:
in_external_intr and yield_on_return. -/
structure ExtIntrState where
  in_external_intr : Bool
  yield_on_return : Bool
  deriving DecidableEq

/-- intr_context from threads/interrupt.c. -/
def intr_context (s : ExtIntrState) : Bool :=
  s.in_external_intr

/-- ASSERT (!intr_context ()) at the top of thread_yield in
threads/thread.c: none when the assertion fires. -/
def thread_yield_entry_check (s : ExtIntrState) : Option Unit :=
  if intr_context s then none else some ()

/-- intr_yield_on_return from threads/interrupt.c: ASSERT (intr_context ())
then set yield_on_return. -/
def intr_yield_on_return (s : ExtIntrState) : Option ExtIntrState :=
  if intr_context s then some { s with yield_on_return := true } else none

/-- Events on the external interrupt path of intr_handler, in the order
they happen. -/
inductive ExtEv where
  | enteredService
  | handlerRan
  | clearedService
  | acked (vec : Nat)
  | yielded
  deriving DecidableEq

/-- The external branch of intr_handler from threads/interrupt.c: assert no
external interrupt is already in service, set in_external_intr and clear
yield_on_return, run the handler (which may call intr_yield_on_return),
then clear in_external_intr, acknowledge the PIC, and only then call
thread_yield if the handler requested it. Returns the final flags and the
event trace; none when an assertion fires. -/
def intr_handler_external (vec : Nat) (handlerRequestsYield : Bool)
    (s0 : ExtIntrState) : Option (ExtIntrState × List ExtEv) :=
  if s0.in_external_intr then none
  else
    let s1 : ExtIntrState := { in_external_intr := true, yield_on_return := false }
    let h := if handlerRequestsYield then intr_yield_on_return s1 else some s1
    h.bind fun s2 =>
      let s3 := { s2 with in_external_intr := false }
      if s3.yield_on_return then
        (thread_yield_entry_check s3).map fun _ =>
          (s3, [.enteredService, .handlerRan, .clearedService, .acked vec, .yielded])
      else some (s3, [.enteredService, .handlerRan, .clearedService, .acked vec])

end Intr

/-! ## Scheduler: basic facts about schedule_core and schedule -/

namespace Kernel

@[simp] theorem setStatus_status (s : KState) (t : Nat) (st : TStatus) (x : Nat) :
    (setStatus s t st).status x = if x = t then st else s.status x := rfl

@[simp] theorem schedule_core_curr (s : KState) (next : Nat) (rq : List Nat) :
    (schedule_core s next rq).curr = next := by
  unfold schedule_core
  split <;> rfl

@[simp] theorem schedule_core_readyq (s : KState) (next : Nat) (rq : List Nat) :
    (schedule_core s next rq).readyq = rq := by
  unfold schedule_core
  split <;> rfl

@[simp] theorem schedule_core_sliceTicks (s : KState) (next : Nat) (rq : List Nat) :
    (schedule_core s next rq).sliceTicks = 0 := by
  unfold schedule_core
  split <;> rfl

@[simp] theorem schedule_core_sleepers (s : KState) (next : Nat) (rq : List Nat) :
    (schedule_core s next rq).sleepers = s.sleepers := by
  unfold schedule_core
  split <;> rfl

@[simp] theorem schedule_core_freeLog (s : KState) (next : Nat) (rq : List Nat) :
    (schedule_core s next rq).freeLog = s.freeLog := by
  unfold schedule_core
  split <;> rfl

@[simp] theorem schedule_core_idleT (s : KState) (next : Nat) (rq : List Nat) :
    (schedule_core s next rq).idleT = s.idleT := by
  unfold schedule_core
  split <;> rfl

@[simp] theorem schedule_core_prio (s : KState) (next : Nat) (rq : List Nat) :
    (schedule_core s next rq).prio = s.prio := by
  unfold schedule_core
  split <;> rfl

@[simp] theorem schedule_core_status (s : KState) (next : Nat) (rq : List Nat)
    (x : Nat) :
    (schedule_core s next rq).status x =
      if x = next then .running else s.status x := by
  unfold schedule_core
  split <;> rfl

theorem schedule_core_dreq (s : KState) (next : Nat) (rq : List Nat) :
    (schedule_core s next rq).dreq =
      if s.curr ≠ next ∧ s.status s.curr = .dying ∧ s.curr ≠ initialTid then
        s.dreq ++ [s.curr]
      else s.dreq := by
  unfold schedule_core
  split <;> rfl

theorem schedule_cases {s s' : KState} (h : schedule s = some s') :
    s.status s.curr ≠ .running ∧
    ∃ next rq, s' = schedule_core s next rq ∧
      (s.readyq = next :: rq ∨ (s.readyq = [] ∧ rq = [] ∧ s.idleT = some next)) := by
  unfold schedule at h
  by_cases hr : s.status s.curr = .running
  · rw [if_pos hr] at h
    exact absurd h (by simp)
  · rw [if_neg hr] at h
    refine ⟨hr, ?_⟩
    cases hq : s.readyq with
    | cons t r =>
      rw [hq] at h
      exact ⟨t, r, (Option.some.inj h).symm, Or.inl rfl⟩
    | nil =>
      rw [hq] at h
      cases hi : s.idleT with
      | none => rw [hi] at h; exact absurd h (by simp)
      | some i =>
        rw [hi] at h
        simp only [Option.map_some'] at h
        exact ⟨i, [], (Option.some.inj h).symm, Or.inr ⟨rfl, rfl, rfl⟩⟩

theorem schedule_sliceTicks {s s' : KState} (h : schedule s = some s') :
    s'.sliceTicks = 0 := by
  obtain ⟨-, next, rq, rfl, -⟩ := schedule_cases h
  simp

theorem schedule_freeLog {s s' : KState} (h : schedule s = some s') :
    s'.freeLog = s.freeLog := by
  obtain ⟨-, next, rq, rfl, -⟩ := schedule_cases h
  simp

end Kernel

/-! ## Interrupt dispatch: claims C8 and C9 -/

/-- Claim C8: dispatching an interrupt whose vector has no registered
handler is a silent no-op exactly when the vector is one of the two benign
spurious vectors 0x27 and 0x2f; for every other unregistered vector the
dispatcher dumps the full captured register and stack frame and panics
(the dump holds every captured register, rsp, rip, eflags, the segment
registers, the error code and cr2). -/
theorem C8_unregistered_vector_dispatch (handlers : Nat → Bool) (cr2 : Nat)
    (f : Intr.IntrFrame) (hnone : handlers f.vec_no = false) :
    (Intr.intr_handler_dispatch handlers cr2 f = .ignoredSpurious ↔
      (f.vec_no = 0x27 ∨ f.vec_no = 0x2f)) ∧
    (¬(f.vec_no = 0x27 ∨ f.vec_no = 0x2f) →
      Intr.intr_handler_dispatch handlers cr2 f =
        .panicked (Intr.intr_dump_frame cr2 f) ∧
      (f.vec_no ∈ Intr.intr_dump_frame cr2 f ∧ f.rip ∈ Intr.intr_dump_frame cr2 f ∧
       cr2 ∈ Intr.intr_dump_frame cr2 f ∧ f.error_code ∈ Intr.intr_dump_frame cr2 f ∧
       f.rax ∈ Intr.intr_dump_frame cr2 f ∧ f.rbx ∈ Intr.intr_dump_frame cr2 f ∧
       f.rcx ∈ Intr.intr_dump_frame cr2 f ∧ f.rdx ∈ Intr.intr_dump_frame cr2 f ∧
       f.rsp ∈ Intr.intr_dump_frame cr2 f ∧ f.rbp ∈ Intr.intr_dump_frame cr2 f ∧
       f.rsi ∈ Intr.intr_dump_frame cr2 f ∧ f.rdi ∈ Intr.intr_dump_frame cr2 f ∧
       f.r8 ∈ Intr.intr_dump_frame cr2 f ∧ f.r9 ∈ Intr.intr_dump_frame cr2 f ∧
       f.r10 ∈ Intr.intr_dump_frame cr2 f ∧ f.r11 ∈ Intr.intr_dump_frame cr2 f ∧
       f.r12 ∈ Intr.intr_dump_frame cr2 f ∧ f.r13 ∈ Intr.intr_dump_frame cr2 f ∧
       f.r14 ∈ Intr.intr_dump_frame cr2 f ∧ f.r15 ∈ Intr.intr_dump_frame cr2 f ∧
       f.eflags ∈ Intr.intr_dump_frame cr2 f ∧ f.es ∈ Intr.intr_dump_frame cr2 f ∧
       f.ds ∈ Intr.intr_dump_frame cr2 f ∧ f.cs ∈ Intr.intr_dump_frame cr2 f ∧
       f.ss ∈ Intr.intr_dump_frame cr2 f)) := by
  constructor
  · unfold Intr.intr_handler_dispatch
    rw [hnone]
    by_cases h : f.vec_no = 0x27 ∨ f.vec_no = 0x2f
    · simp [h]
    · simp [h]
  · intro h
    constructor
    · unfold Intr.intr_handler_dispatch
      rw [hnone]
      simp [h]
    · simp [Intr.intr_dump_frame]

/-- Witness for C8 at vector 5 with no handler registered. -/
theorem C8_unregistered_vector_dispatch_witness :
    Intr.intr_handler_dispatch (fun _ => false) 0
        ⟨5, 0, 0, 0, 0, 0, 0, 0, 0, 0, 0, 0, 0, 0, 0, 0, 0, 0, 0, 0, 0, 0, 0, 0⟩ =
      .panicked (Intr.intr_dump_frame 0
        ⟨5, 0, 0, 0, 0, 0, 0, 0, 0, 0, 0, 0, 0, 0, 0, 0, 0, 0, 0, 0, 0, 0, 0, 0⟩) :=
  ((C8_unregistered_vector_dispatch (fun _ => false) 0
    ⟨5, 0, 0, 0, 0, 0, 0, 0, 0, 0, 0, 0, 0, 0, 0, 0, 0, 0, 0, 0, 0, 0, 0, 0⟩
    rfl).2 (by decide)).1

/-- Claim C9: on the external path of intr_handler, when the handler
requested yield on return, the in service flag is cleared and the PIC
acknowledged before thread_yield runs, so intr_context () is false at the
yield and the ASSERT (!intr_context ()) in thread_yield cannot fire: the
run returns the full event trace (never the assertion failure), the final
flags show the service flag down, and the thread_yield entry check
succeeds on the state at which the yield is invoked. -/
theorem C9_yield_after_service_cleared (vec : Nat) (hreq : Bool)
    (s0 : Intr.ExtIntrState) (h0 : s0.in_external_intr = false) :
    Intr.intr_handler_external vec hreq s0 =
      some ({ in_external_intr := false, yield_on_return := hreq },
        if hreq then
          [.enteredService, .handlerRan, .clearedService, .acked vec, .yielded]
        else [.enteredService, .handlerRan, .clearedService, .acked vec]) ∧
    Intr.thread_yield_entry_check
      { in_external_intr := false, yield_on_return := hreq } = some () := by
  cases hreq <;>
    simp [Intr.intr_handler_external, Intr.intr_yield_on_return,
      Intr.thread_yield_entry_check, Intr.intr_context, h0]

/-- Witness for C9: a timer interrupt (vector 0x20) whose handler requested
a yield, entered with no external interrupt in service. -/
theorem C9_yield_after_service_cleared_witness :
    Intr.intr_handler_external 0x20 true ⟨false, false⟩ =
      some (⟨false, true⟩,
        [.enteredService, .handlerRan, .clearedService, .acked 0x20, .yielded]) :=
  (C9_yield_after_service_cleared 0x20 true ⟨false, false⟩ rfl).1

/-! ## Time slice: claim C7 -/

/-- Claim C7: on every timer tick thread_tick increments the per slice
counter by one and requests a deferred yield (intr_yield_on_return)
exactly when the incremented counter reaches or exceeds TIME_SLICE = 4;
every switch in schedule resets the counter to 0; and starting from a
fresh slice none of the first three ticks requests a yield while the
fourth does. -/
theorem C7_time_slice_preemption :
    (∀ tt : Nat, tt + 1 < 2 ^ 32 → (Kernel.thread_tick tt).1 = tt + 1) ∧
    (∀ tt : Nat, (Kernel.thread_tick tt).2 = true ↔
      Kernel.TIME_SLICE ≤ (Kernel.thread_tick tt).1) ∧
    (∀ s s' : Kernel.KState, Kernel.schedule s = some s' → s'.sliceTicks = 0) ∧
    (∀ k : Nat, k < Kernel.TIME_SLICE → (Kernel.sliceIter k).2 = false) ∧
    (Kernel.sliceIter Kernel.TIME_SLICE).2 = true := by
  refine ⟨?_, ?_, ?_, ?_, ?_⟩
  · intro tt h
    have h2 : tt + 1 < 4294967296 := by simpa using h
    simp [Kernel.thread_tick, Nat.mod_eq_of_lt h2]
  · intro tt
    simp [Kernel.thread_tick]
  · intro s s' h
    exact Kernel.schedule_sliceTicks h
  · decide
  · decide

/-- Witness for C7: a counter of 2 is incremented to 3 with no yield
request, and the reset clause applies to a concrete successful switch. -/
theorem C7_time_slice_preemption_witness :
    (Kernel.thread_tick 2).1 = 3 ∧ ((Kernel.thread_tick 2).2 = true ↔
      Kernel.TIME_SLICE ≤ (Kernel.thread_tick 2).1) :=
  ⟨C7_time_slice_preemption.1 2 (by decide), C7_time_slice_preemption.2.1 2⟩

/-! ## Timer: the sleep queue order -/

namespace Timer

theorem less_wake_tick_asymm {a b : SleepEntry} (h : less_wake_tick a b = true) :
    less_wake_tick b a = false := by
  unfold less_wake_tick at *
  by_cases hw : a.wake = b.wake
  · rw [if_pos hw] at h
    rw [if_pos hw.symm]
    simp only [decide_eq_true_eq] at h
    simp only [decide_eq_false_iff_not]
    omega
  · rw [if_neg hw] at h
    rw [if_neg (fun hba => hw hba.symm)]
    simp only [decide_eq_true_eq] at h
    simp only [decide_eq_false_iff_not]
    omega

theorem less_wake_tick_trans {a b c : SleepEntry} (hab : less_wake_tick a b = true)
    (hbc : less_wake_tick b c = true) : less_wake_tick a c = true := by
  unfold less_wake_tick at *
  by_cases h1 : a.wake = b.wake
  · rw [if_pos h1] at hab
    simp only [decide_eq_true_eq] at hab
    by_cases h2 : b.wake = c.wake
    · rw [if_pos h2] at hbc
      simp only [decide_eq_true_eq] at hbc
      rw [if_pos (h1.trans h2)]
      simp only [decide_eq_true_eq]
      omega
    · rw [if_neg h2] at hbc
      simp only [decide_eq_true_eq] at hbc
      have h3 : a.wake ≠ c.wake := by omega
      rw [if_neg h3]
      simp only [decide_eq_true_eq]
      omega
  · rw [if_neg h1] at hab
    simp only [decide_eq_true_eq] at hab
    by_cases h2 : b.wake = c.wake
    · have h3 : a.wake ≠ c.wake := by omega
      rw [if_neg h3]
      simp only [decide_eq_true_eq]
      omega
    · rw [if_neg h2] at hbc
      simp only [decide_eq_true_eq] at hbc
      have h3 : a.wake ≠ c.wake := by omega
      rw [if_neg h3]
      simp only [decide_eq_true_eq]
      omega

theorem wake_le_of_not_less {a b : SleepEntry} (h : less_wake_tick b a = false) :
    a.wake ≤ b.wake := by
  unfold less_wake_tick at h
  by_cases hw : b.wake = a.wake
  · omega
  · rw [if_neg hw] at h
    simp only [decide_eq_false_iff_not] at h
    omega

theorem mem_list_insert_ordered (less : α → α → Bool) (e : α) (l : List α) (x : α) :
    x ∈ list_insert_ordered less e l ↔ x = e ∨ x ∈ l := by
  induction l with
  | nil => simp [list_insert_ordered]
  | cons y ys ih =>
    unfold list_insert_ordered
    by_cases h : less e y = true
    · rw [if_pos h]
      simp only [List.mem_cons]
    · rw [if_neg h]
      simp only [List.mem_cons, ih]
      tauto

theorem sortedq_insert {q : List SleepEntry} (e : SleepEntry) (hq : SortedQ q) :
    SortedQ (list_insert_ordered less_wake_tick e q) := by
  induction q with
  | nil => simp [SortedQ, list_insert_ordered]
  | cons x xs ih =>
    have hx := (List.pairwise_cons.mp hq).1
    have hxs := (List.pairwise_cons.mp hq).2
    unfold list_insert_ordered
    by_cases h : less_wake_tick e x = true
    · rw [if_pos h]
      refine List.pairwise_cons.mpr ⟨?_, hq⟩
      intro y hy
      rcases List.mem_cons.mp hy with rfl | hy
      · exact less_wake_tick_asymm h
      · by_cases hye : less_wake_tick y e = true
        · exact absurd (less_wake_tick_trans hye h) (by simp [hx y hy])
        · simpa using hye
    · rw [if_neg h]
      refine List.pairwise_cons.mpr ⟨?_, ih hxs⟩
      intro y hy
      rcases (mem_list_insert_ordered _ _ _ _).mp hy with rfl | hy
      · simpa using h
      · exact hx y hy

theorem wakeAux_eq (t : Int) (q : List SleepEntry) :
    wakeAux t q = (q.dropWhile (fun e => decide (e.wake ≤ t)),
      q.takeWhile (fun e => decide (e.wake ≤ t))) := by
  induction q with
  | nil => rfl
  | cons e rest ih =>
    unfold wakeAux
    by_cases h : t < e.wake
    · rw [if_pos h]
      have hd : (decide (e.wake ≤ t)) = false := by simp; omega
      simp [List.dropWhile_cons, List.takeWhile_cons, hd]
    · rw [if_neg h]
      have hd : (decide (e.wake ≤ t)) = true := by simp; omega
      simp [List.dropWhile_cons, List.takeWhile_cons, hd, ih]

theorem sortedq_timer_interrupt {s : TState} (hq : SortedQ s.sleepq) :
    SortedQ (timer_interrupt s).sleepq := by
  have h2 : (timer_interrupt s).sleepq =
      s.sleepq.dropWhile (fun e => decide (e.wake ≤ s.ticks + 1)) := by
    show (wakeAux (s.ticks + 1) s.sleepq).1 = _
    rw [wakeAux_eq]
  rw [h2]
  exact List.Pairwise.sublist (List.dropWhile_sublist _) hq

theorem sortedq_timer_sleep {s : TState} (c : Nat) (n : Int) (hq : SortedQ s.sleepq) :
    SortedQ (timer_sleep c n s).sleepq := by
  unfold timer_sleep
  by_cases h : n ≤ 0
  · rw [if_pos h]
    exact hq
  · rw [if_neg h]
    exact sortedq_insert _ hq

theorem sortedq_trun (evs : List TEv) (s : TState) (hq : SortedQ s.sleepq) :
    SortedQ (trun s evs).sleepq := by
  induction evs generalizing s with
  | nil => exact hq
  | cons ev evs ih =>
    cases ev with
    | sleepE c n => exact ih _ (sortedq_timer_sleep c n hq)
    | tickE => exact ih _ (sortedq_timer_interrupt hq)

theorem mem_takeWhile_of_sorted {q : List SleepEntry} {e : SleepEntry} {t : Int}
    (hq : SortedQ q) (he : e ∈ q) (hdue : e.wake ≤ t) :
    e ∈ q.takeWhile (fun x => decide (x.wake ≤ t)) := by
  induction q with
  | nil => cases he
  | cons x xs ih =>
    have hx := (List.pairwise_cons.mp hq).1
    have hxs := (List.pairwise_cons.mp hq).2
    rcases List.mem_cons.mp he with rfl | he
    · rw [List.takeWhile_cons, if_pos (by simpa using hdue)]
      exact List.mem_cons_self _ _
    · have hxe : x.wake ≤ e.wake := wake_le_of_not_less (hx e he)
      rw [List.takeWhile_cons, if_pos (by simp; omega)]
      exact List.mem_cons_of_mem _ (ih hxs he)

theorem mem_split_pair {l : List α} {a b : α} (ha : a ∈ l) (hb : b ∈ l)
    (hne : a ≠ b) :
    (∃ l1 l2, l = l1 ++ a :: l2 ∧ b ∈ l2) ∨
    (∃ l1 l2, l = l1 ++ b :: l2 ∧ a ∈ l2) := by
  induction l with
  | nil => cases ha
  | cons x xs ih =>
    by_cases hax : a = x
    · subst hax
      left
      refine ⟨[], xs, rfl, ?_⟩
      cases List.mem_cons.mp hb with
      | inl h => exact absurd h.symm hne
      | inr h => exact h
    · have ha2 : a ∈ xs := by
        cases List.mem_cons.mp ha with
        | inl h => exact absurd h hax
        | inr h => exact h
      by_cases hbx : b = x
      · subst hbx
        right
        exact ⟨[], xs, rfl, ha2⟩
      · have hb2 : b ∈ xs := by
          cases List.mem_cons.mp hb with
          | inl h => exact absurd h hbx
          | inr h => exact h
        rcases ih ha2 hb2 with ⟨l1, l2, heq, h⟩ | ⟨l1, l2, heq, h⟩
        · exact Or.inl ⟨x :: l1, l2, by rw [heq]; rfl, h⟩
        · exact Or.inr ⟨x :: l1, l2, by rw [heq]; rfl, h⟩

theorem pairwise_append_middle {R : α → α → Prop} {l1 l2 : List α} {b a : α}
    (h : (l1 ++ b :: l2).Pairwise R) (ha : a ∈ l2) : R b a := by
  rcases List.pairwise_append.mp h with ⟨-, h2, -⟩
  exact (List.pairwise_cons.mp h2).1 a ha

end Timer

/-! ## Timer: claims C6 and C10 -/

/-- Claim C6: from any state with a sorted sleep queue, every sequence of
core timer events (timer_sleep inserts via list_insert_ordered, the wake
scan pops a prefix) leaves it sorted; the sort order less_wake_tick is
ascending wake tick with ties ordered by descending captured priority; and
among two entries due on the same tick with different captured priorities
the wake scan of that interrupt unblocks the higher priority one strictly
first. -/
theorem C6_sleep_queue_order :
    (∀ (s : Timer.TState) (evs : List Timer.TEv), Timer.SortedQ s.sleepq →
      Timer.SortedQ (Timer.trun s evs).sleepq) ∧
    (∀ q : List Timer.SleepEntry, Timer.SortedQ q →
      q.Pairwise (fun a b => a.wake < b.wake ∨ (a.wake = b.wake ∧ b.prio ≤ a.prio))) ∧
    (∀ (s : Timer.TState) (e1 e2 : Timer.SleepEntry), Timer.SortedQ s.sleepq →
      e1 ∈ s.sleepq → e2 ∈ s.sleepq →
      e1.wake = s.ticks + 1 → e2.wake = s.ticks + 1 → e2.prio < e1.prio →
      ∃ l1 l2, (Timer.timer_interrupt s).log =
        s.log ++ l1 ++ (s.ticks + 1, e1.tid) :: l2 ∧ (s.ticks + 1, e2.tid) ∈ l2) := by
  refine ⟨fun s evs h => Timer.sortedq_trun evs s h, ?_, ?_⟩
  · intro q hq
    refine hq.imp ?_
    intro a b h
    unfold Timer.less_wake_tick at h
    by_cases hw : b.wake = a.wake
    · rw [if_pos hw] at h
      simp only [decide_eq_false_iff_not] at h
      right
      omega
    · rw [if_neg hw] at h
      simp only [decide_eq_false_iff_not] at h
      left
      omega
  · intro s e1 e2 hq h1 h2 hw1 hw2 hp
    have hne : e1 ≠ e2 := by
      intro h
      rw [h] at hp
      omega
    set w := s.sleepq.takeWhile (fun x => decide (x.wake ≤ s.ticks + 1)) with hwdef
    have hm1 : e1 ∈ w := Timer.mem_takeWhile_of_sorted hq h1 (le_of_eq hw1)
    have hm2 : e2 ∈ w := Timer.mem_takeWhile_of_sorted hq h2 (le_of_eq hw2)
    have hwsorted : Timer.SortedQ w :=
      List.Pairwise.sublist (List.takeWhile_sublist _) hq
    have hlog : (Timer.timer_interrupt s).log =
        s.log ++ w.map (fun e => (s.ticks + 1, e.tid)) := by
      have h2 : (Timer.wakeAux (s.ticks + 1) s.sleepq).2 = w := by
        rw [Timer.wakeAux_eq]
      show s.log ++ (Timer.wakeAux (s.ticks + 1) s.sleepq).2.map
        (fun e => (s.ticks + 1, e.tid)) = _
      rw [h2]
    rcases Timer.mem_split_pair hm1 hm2 hne with ⟨l1, l2, hsplit, hmem⟩ | ⟨l1, l2, hsplit, hmem⟩
    · refine ⟨l1.map (fun e => (s.ticks + 1, e.tid)),
        l2.map (fun e => (s.ticks + 1, e.tid)), ?_, ?_⟩
      · rw [hlog, hsplit]
        simp
      · exact List.mem_map.mpr ⟨e2, hmem, rfl⟩
    · exfalso
      rw [hsplit] at hwsorted
      have := Timer.pairwise_append_middle hwsorted hmem
      unfold Timer.less_wake_tick at this
      rw [if_pos (by omega)] at this
      simp only [decide_eq_false_iff_not] at this
      omega

/-- Witness for C6: two entries due on the same tick, priorities 5 and 3;
the wake scan logs the priority 5 thread first. -/
theorem C6_sleep_queue_order_witness :
    ∃ l1 l2,
      (Timer.timer_interrupt
        ⟨0, [⟨1, 7, 5⟩, ⟨1, 8, 3⟩], [], fun _ => .blocked, [], fun _ => 31⟩).log =
        ([] : List (Int × Nat)) ++ l1 ++ ((0 : Int) + 1, 7) :: l2 ∧
        ((0 : Int) + 1, 8) ∈ l2 :=
  C6_sleep_queue_order.2.2
    ⟨0, [⟨1, 7, 5⟩, ⟨1, 8, 3⟩], [], fun _ => .blocked, [], fun _ => 31⟩
    ⟨1, 7, 5⟩ ⟨1, 8, 3⟩
    (by unfold Timer.SortedQ; simp [List.pairwise_cons, Timer.less_wake_tick])
    (by simp) (by simp) (by decide) (by decide) (by decide)

/-- Claim C10: the wake scan never frees a sleep entry: every woken entry
is appended to awake_list; no core timer event removes entries from
awake_list (cleanup_awake_list, the only routine that frees them, is
invoked by no function of this core, so it is not a core event); hence
after any sequence of core events from boot, awake_list holds exactly one
entry per wake scan unblock performed since boot; and cleanup_awake_list
empties awake_list when an external caller runs it. -/
theorem C10_awake_list_accumulates :
    (∀ s : Timer.TState, (Timer.timer_interrupt s).awake =
      s.awake ++ (Timer.wakeAux (s.ticks + 1) s.sleepq).2) ∧
    (∀ (s : Timer.TState) (ev : Timer.TEv), ∃ app,
      (Timer.tstep s ev).awake = s.awake ++ app) ∧
    (∀ (ticks0 : Int) (st : Nat → TStatus) (pr : Nat → Int) (evs : List Timer.TEv),
      (Timer.trun ⟨ticks0, [], [], st, [], pr⟩ evs).awake.length =
        (Timer.trun ⟨ticks0, [], [], st, [], pr⟩ evs).log.length) ∧
    (∀ s : Timer.TState, (Timer.cleanup_awake_list s).awake = []) := by
  have hsleep : ∀ (s : Timer.TState) (c : Nat) (n : Int),
      (Timer.timer_sleep c n s).awake = s.awake ∧
      (Timer.timer_sleep c n s).log = s.log := by
    intro s c n
    unfold Timer.timer_sleep Timer.add_sleeping_thread
    by_cases h : n ≤ 0
    · rw [if_pos h]
      exact ⟨rfl, rfl⟩
    · rw [if_neg h]
      exact ⟨rfl, rfl⟩
  refine ⟨fun s => rfl, ?_, ?_, fun s => rfl⟩
  · intro s ev
    cases ev with
    | sleepE c n =>
      refine ⟨[], ?_⟩
      show (Timer.timer_sleep c n s).awake = s.awake ++ []
      rw [(hsleep s c n).1, List.append_nil]
    | tickE => exact ⟨_, rfl⟩
  · intro ticks0 st pr evs
    have key : ∀ (evs : List Timer.TEv) (s : Timer.TState),
        s.awake.length = s.log.length →
        (Timer.trun s evs).awake.length = (Timer.trun s evs).log.length := by
      intro evs
      induction evs with
      | nil => exact fun s h => h
      | cons ev evs ih =>
        intro s h
        refine ih _ ?_
        cases ev with
        | sleepE c n =>
          show (Timer.timer_sleep c n s).awake.length =
            (Timer.timer_sleep c n s).log.length
          rw [(hsleep s c n).1, (hsleep s c n).2, h]
        | tickE =>
          show (Timer.timer_interrupt s).awake.length =
            (Timer.timer_interrupt s).log.length
          unfold Timer.timer_interrupt
          simp [h]
    exact key evs _ rfl

/-! ## Timer: how runs of interrupts act on the sleep queue -/

namespace Timer

theorem TState.extEq {a b : TState} (h1 : a.ticks = b.ticks)
    (h2 : a.sleepq = b.sleepq) (h3 : a.awake = b.awake) (h4 : a.status = b.status)
    (h5 : a.log = b.log) (h6 : a.prio = b.prio) : a = b := by
  cases a
  cases b
  dsimp only at h1 h2 h3 h4 h5 h6
  subst h1 h2 h3 h4 h5 h6
  rfl

theorem wakeAux_all_future (t : Int) (q : List SleepEntry)
    (h : ∀ e ∈ q, t < e.wake) : wakeAux t q = (q, []) := by
  cases q with
  | nil => rfl
  | cons e rest =>
    unfold wakeAux
    rw [if_pos (h e (List.mem_cons_self e rest))]

theorem tickIter_ticks (k : Nat) (s : TState) :
    (tickIter k s).ticks = s.ticks + k := by
  induction k with
  | zero => simp [tickIter]
  | succ k ih =>
    calc (tickIter (k + 1) s).ticks = (tickIter k s).ticks + 1 := rfl
    _ = s.ticks + k + 1 := by rw [ih]
    _ = s.ticks + (k + 1 : Nat) := by push_cast; ring

theorem tickIter_add (m n : Nat) (s : TState) :
    tickIter (m + n) s = tickIter n (tickIter m s) := by
  induction n with
  | zero => rfl
  | succ n ih =>
    show timer_interrupt (tickIter (m + n) s) = timer_interrupt (tickIter n (tickIter m s))
    rw [ih]

theorem timer_interrupt_quiet {s : TState}
    (h : ∀ e ∈ s.sleepq, s.ticks + 1 < e.wake) :
    timer_interrupt s = { s with ticks := s.ticks + 1 } := by
  have hw : wakeAux (s.ticks + 1) s.sleepq = (s.sleepq, []) := wakeAux_all_future _ _ h
  apply TState.extEq
  · rfl
  · show (wakeAux (s.ticks + 1) s.sleepq).1 = s.sleepq
    rw [hw]
  · show s.awake ++ (wakeAux (s.ticks + 1) s.sleepq).2 = s.awake
    rw [hw]
    simp
  · funext x
    show (if x ∈ ((wakeAux (s.ticks + 1) s.sleepq).2.map SleepEntry.tid) then .ready
      else s.status x) = s.status x
    rw [hw]
    simp
  · show s.log ++ (wakeAux (s.ticks + 1) s.sleepq).2.map (fun e => (s.ticks + 1, e.tid))
      = s.log
    rw [hw]
    simp
  · rfl

theorem timer_interrupt_wake_front {s : TState} {e : SleepEntry}
    {rest : List SleepEntry} (hq : s.sleepq = e :: rest) (he : e.wake = s.ticks + 1)
    (hrest : ∀ x ∈ rest, s.ticks + 1 < x.wake) :
    timer_interrupt s =
      { s with
        ticks := s.ticks + 1
        sleepq := rest
        awake := s.awake ++ [e]
        status := fun x => if x = e.tid then .ready else s.status x
        log := s.log ++ [(s.ticks + 1, e.tid)] } := by
  have hw : wakeAux (s.ticks + 1) s.sleepq = (rest, [e]) := by
    rw [hq]
    unfold wakeAux
    rw [if_neg (by omega)]
    rw [wakeAux_all_future _ _ hrest]
  apply TState.extEq
  · rfl
  · show (wakeAux (s.ticks + 1) s.sleepq).1 = rest
    rw [hw]
  · show s.awake ++ (wakeAux (s.ticks + 1) s.sleepq).2 = s.awake ++ [e]
    rw [hw]
  · funext x
    show (if x ∈ ((wakeAux (s.ticks + 1) s.sleepq).2.map SleepEntry.tid) then .ready
      else s.status x) = if x = e.tid then .ready else s.status x
    rw [hw]
    simp
  · show s.log ++ (wakeAux (s.ticks + 1) s.sleepq).2.map (fun x => (s.ticks + 1, x.tid))
      = s.log ++ [(s.ticks + 1, e.tid)]
    rw [hw]
    rfl
  · rfl

theorem tickIter_quiet {s : TState} {k : Nat}
    (h : ∀ e ∈ s.sleepq, s.ticks + k < e.wake) :
    tickIter k s = { s with ticks := s.ticks + k } := by
  induction k with
  | zero =>
    show s = { s with ticks := s.ticks + (0 : Nat) }
    apply TState.extEq <;> simp
  | succ k ih =>
    have hk : ∀ e ∈ s.sleepq, s.ticks + (k : Int) < e.wake := by
      intro e he
      have h2 := h e he
      push_cast at h2 ⊢
      omega
    show timer_interrupt (tickIter k s) = _
    rw [ih hk]
    rw [timer_interrupt_quiet (by
      intro e he
      have h2 := h e he
      push_cast at h2 ⊢
      omega)]
    apply TState.extEq
    · show s.ticks + (k : Int) + 1 = s.ticks + ((k + 1 : Nat) : Int)
      push_cast
      ring
    · rfl
    · rfl
    · rfl
    · rfl
    · rfl

theorem run_to_wake {s : TState} {e : SleepEntry} {rest : List SleepEntry}
    (hq : s.sleepq = e :: rest) (hlt : s.ticks < e.wake)
    (hrest : ∀ x ∈ rest, e.wake < x.wake) :
    tickIter (e.wake - s.ticks).toNat s =
      { s with
        ticks := e.wake
        sleepq := rest
        awake := s.awake ++ [e]
        status := fun x => if x = e.tid then .ready else s.status x
        log := s.log ++ [(e.wake, e.tid)] } := by
  obtain ⟨j, hd, hjval⟩ : ∃ j : Nat, (e.wake - s.ticks).toNat = j + 1 ∧
      (j : Int) = e.wake - s.ticks - 1 :=
    ⟨(e.wake - s.ticks).toNat - 1, by omega, by omega⟩
  rw [hd]
  show timer_interrupt (tickIter j s) = _
  have hquiet : tickIter j s = { s with ticks := s.ticks + j } := by
    apply tickIter_quiet
    intro x hx
    rw [hq] at hx
    rcases List.mem_cons.mp hx with rfl | hx
    · omega
    · have h2 := hrest x hx
      omega
  rw [hquiet]
  rw [timer_interrupt_wake_front
    (show ({ s with ticks := s.ticks + (j : Int) }).sleepq = e :: rest from hq)
    (show e.wake = s.ticks + (j : Int) + 1 by omega)
    (by
      intro x hx
      show s.ticks + (j : Int) + 1 < x.wake
      have h2 := hrest x hx
      omega)]
  apply TState.extEq
  · show s.ticks + (j : Int) + 1 = e.wake
    omega
  · rfl
  · rfl
  · rfl
  · show s.log ++ [(s.ticks + (j : Int) + 1, e.tid)] = s.log ++ [(e.wake, e.tid)]
    rw [show s.ticks + (j : Int) + 1 = e.wake by omega]
  · rfl

theorem sleepScenario_eq (T N M : Int) (A B : Nat) (st0 : Nat → TStatus)
    (pr : Nat → Int) (hN : 0 < N) (hNM : N < M) :
    sleepScenario T N M A B st0 pr =
      { ticks := T,
        sleepq := [⟨T + N, A, pr A⟩, ⟨T + M, B, pr B⟩],
        awake := [],
        status := fun x => if x = B then .blocked else if x = A then .blocked else st0 x,
        log := [],
        prio := pr } := by
  have h1 : timer_sleep A N ⟨T, [], [], st0, [], pr⟩ =
      { ticks := T, sleepq := [⟨T + N, A, pr A⟩], awake := [],
        status := fun x => if x = A then .blocked else st0 x, log := [], prio := pr } := by
    unfold timer_sleep add_sleeping_thread
    rw [if_neg (by omega : ¬ N ≤ 0)]
    rfl
  have hless : less_wake_tick ⟨T + M, B, pr B⟩ ⟨T + N, A, pr A⟩ = false := by
    unfold less_wake_tick
    rw [if_neg (by simp; omega)]
    simp
    omega
  unfold sleepScenario
  rw [h1]
  unfold timer_sleep add_sleeping_thread
  rw [if_neg (by omega : ¬ M ≤ 0)]
  apply TState.extEq
  · rfl
  · show list_insert_ordered less_wake_tick ⟨T + M, B, pr B⟩ [⟨T + N, A, pr A⟩] = _
    unfold list_insert_ordered
    rw [if_neg (by rw [hless]; simp)]
    rfl
  · rfl
  · rfl
  · rfl
  · rfl

end Timer

/-! ## Scheduler: the invariant and its preservation -/

namespace Kernel

@[simp] theorem setStatus_curr (s : KState) (t : Nat) (st : TStatus) :
    (setStatus s t st).curr = s.curr := rfl

@[simp] theorem setStatus_readyq (s : KState) (t : Nat) (st : TStatus) :
    (setStatus s t st).readyq = s.readyq := rfl

@[simp] theorem setStatus_dreq (s : KState) (t : Nat) (st : TStatus) :
    (setStatus s t st).dreq = s.dreq := rfl

@[simp] theorem setStatus_sleepers (s : KState) (t : Nat) (st : TStatus) :
    (setStatus s t st).sleepers = s.sleepers := rfl

@[simp] theorem setStatus_freeLog (s : KState) (t : Nat) (st : TStatus) :
    (setStatus s t st).freeLog = s.freeLog := rfl

@[simp] theorem setStatus_idleT (s : KState) (t : Nat) (st : TStatus) :
    (setStatus s t st).idleT = s.idleT := rfl

@[simp] theorem setStatus_prio (s : KState) (t : Nat) (st : TStatus) :
    (setStatus s t st).prio = s.prio := rfl

theorem inv_of_schedule {s s' : KState} (hpre : PreInv s) (hs : schedule s = some s') :
    Inv s' := by
  obtain ⟨hnr, next, rq, rfl, hpick⟩ := schedule_cases hs
  have hnext : next ∈ s.readyq ∨ s.idleT = some next := by
    rcases hpick with h | ⟨h1, h2, h3⟩
    · left
      rw [h]
      exact List.mem_cons_self _ _
    · right
      exact h3
  have hnext_ne_dying : s.status next ≠ .dying := by
    rcases hnext with h | h
    · rw [hpre.ready_status next h]
      simp
    · exact (hpre.idle_ok next h).2.2.2.1
  have hnext_ne_blocked : ∀ u ∈ s.sleepers, u ≠ next := by
    intro u hu hne
    subst hne
    rcases hnext with h | h
    · have h1 := hpre.ready_status u h
      have h2 := hpre.sleepers_status u hu
      rw [h1] at h2
      simp at h2
    · exact (hpre.idle_ok u h).2.1 hu
  constructor
  · simp
  · intro t ht
    rw [schedule_core_status] at ht
    by_cases h : t = next
    · simp [h]
    · rw [if_neg h] at ht
      exact absurd ht (hpre.no_running t)
  · rw [schedule_core_readyq]
    rcases hpick with h | ⟨h1, h2, h3⟩
    · have := hpre.ready_nodup
      rw [h] at this
      exact this.of_cons
    · rw [h2]
      exact List.nodup_nil
  · intro t ht
    rw [schedule_core_readyq] at ht
    rcases hpick with h | ⟨h1, h2, h3⟩
    · have hmem : t ∈ s.readyq := by
        rw [h]
        exact List.mem_cons_of_mem _ ht
      have hne : t ≠ next := by
        have := hpre.ready_nodup
        rw [h] at this
        intro he
        subst he
        exact (List.pairwise_cons.mp this).1 t ht rfl
      rw [schedule_core_status, if_neg hne]
      exact hpre.ready_status t hmem
    · rw [h2] at ht
      cases ht
  · intro t ht
    rw [schedule_core_dreq] at ht
    rw [schedule_core_status]
    by_cases hguard : s.curr ≠ next ∧ s.status s.curr = .dying ∧ s.curr ≠ initialTid
    · rw [if_pos hguard] at ht
      rcases List.mem_append.mp ht with ht | ht
      · have hd := hpre.dreq_status t ht
        have : t ≠ next := by
          intro he
          subst he
          exact hnext_ne_dying hd
        rw [if_neg this]
        exact hd
      · have : t = s.curr := List.mem_singleton.mp ht
        subst this
        rw [if_neg hguard.1]
        exact hguard.2.1
    · rw [if_neg hguard] at ht
      have hd := hpre.dreq_status t ht
      have : t ≠ next := by
        intro he
        subst he
        exact hnext_ne_dying hd
      rw [if_neg this]
      exact hd
  · rw [schedule_core_sleepers]
    exact hpre.sleepers_nodup
  · intro t ht
    rw [schedule_core_sleepers] at ht
    rw [schedule_core_status, if_neg (hnext_ne_blocked t ht)]
    exact hpre.sleepers_status t ht
  · intro p hp
    rw [schedule_core_freeLog] at hp
    have hf := hpre.freeLog_ok p hp
    refine ⟨hf.1, ?_⟩
    rw [schedule_core_status]
    have : p.2 ≠ next := by
      intro he
      rw [he] at hf
      exact hnext_ne_dying hf.2
    rw [if_neg this]
    exact hf.2
  · intro i hi
    rw [schedule_core_idleT] at hi
    have hio := hpre.idle_ok i hi
    refine ⟨?_, ?_, ?_, ?_, ?_⟩
    · rw [schedule_core_readyq]
      rcases hpick with h | ⟨h1, h2, h3⟩
      · intro hmem
        exact hio.1 (by rw [h]; exact List.mem_cons_of_mem _ hmem)
      · rw [h2]
        exact List.not_mem_nil i
    · rw [schedule_core_sleepers]
      exact hio.2.1
    · rw [schedule_core_dreq]
      by_cases hguard : s.curr ≠ next ∧ s.status s.curr = .dying ∧ s.curr ≠ initialTid
      · rw [if_pos hguard]
        intro hmem
        rcases List.mem_append.mp hmem with hmem | hmem
        · exact hio.2.2.1 hmem
        · have : i = s.curr := List.mem_singleton.mp hmem
          subst this
          exact hio.2.2.2.1 hguard.2.1
      · rw [if_neg hguard]
        exact hio.2.2.1
    · rw [schedule_core_status]
      by_cases h : i = next
      · simp [h]
      · rw [if_neg h]
        exact hio.2.2.2.1
    · rw [schedule_core_status]
      by_cases h : i = next
      · simp [h]
      · rw [if_neg h]
        exact hio.2.2.2.2

theorem inv_do_schedule {s s' : KState} {st : TStatus}
    (hdo : do_schedule st s = some s')
    (hrun : s.status s.curr = .running)
    (huniq : ∀ t, s.status t = .running → t = s.curr)
    (hnodup : s.readyq.Nodup)
    (hready2 : ∀ t ∈ s.readyq, t = s.curr ∨ s.status t = .ready)
    (hst_ready : s.curr ∈ s.readyq → st = .ready)
    (hst_nrun : st ≠ .running)
    (hdreq : ∀ t ∈ s.dreq, s.status t = .dying)
    (hsnodup : s.sleepers.Nodup)
    (hsleep : ∀ t ∈ s.sleepers, s.status t = .blocked)
    (hfree : ∀ p ∈ s.freeLog, p.1 ≠ p.2 ∧ s.status p.2 = .dying)
    (hidle : ∀ i, s.idleT = some i →
      i ∉ s.readyq ∧ i ∉ s.sleepers ∧ i ∉ s.dreq ∧ s.status i ≠ .dying ∧
      s.status i ≠ .unused ∧ (i = s.curr → st ≠ .dying ∧ st ≠ .unused)) :
    Inv s' := by
  unfold do_schedule at hdo
  rw [if_pos hrun] at hdo
  refine inv_of_schedule ?_ hdo
  constructor
  · intro t
    simp only [setStatus_status]
    by_cases h : t = s.curr
    · rw [if_pos h]
      exact hst_nrun
    · rw [if_neg h]
      intro hr
      exact h (huniq t hr)
  · simpa using hnodup
  · intro t ht
    simp only [setStatus_readyq] at ht
    simp only [setStatus_status]
    by_cases h : t = s.curr
    · rw [if_pos h]
      subst h
      exact hst_ready ht
    · rw [if_neg h]
      rcases hready2 t ht with he | he
      · exact absurd he h
      · exact he
  · intro t ht
    simp only [setStatus_dreq] at ht
    cases ht
  · simpa using hsnodup
  · intro t ht
    simp only [setStatus_sleepers] at ht
    have hb := hsleep t ht
    have hne : t ≠ s.curr := by
      intro he
      rw [he, hrun] at hb
      cases hb
    simp only [setStatus_status, if_neg hne]
    exact hb
  · intro p hp
    simp only [setStatus_freeLog] at hp
    simp only [setStatus_status]
    rcases List.mem_append.mp hp with hp | hp
    · have hf := hfree p hp
      have hne : p.2 ≠ s.curr := by
        intro he
        rw [he, hrun] at hf
        cases hf.2
      rw [if_neg hne]
      exact hf
    · obtain ⟨v, hv, rfl⟩ := List.mem_map.mp hp
      have hd := hdreq v hv
      have hne : v ≠ s.curr := by
        intro he
        rw [he, hrun] at hd
        cases hd
      refine ⟨fun he => hne he.symm, ?_⟩
      simp only [if_neg hne]
      exact hd
  · intro i hi
    simp only [setStatus_idleT] at hi
    have hio := hidle i hi
    refine ⟨by simpa using hio.1, by simpa using hio.2.1, by simp, ?_, ?_⟩
    · simp only [setStatus_status]
      by_cases h : i = s.curr
      · rw [if_pos h]
        exact (hio.2.2.2.2.2 h).1
      · rw [if_neg h]
        exact hio.2.2.2.1
    · simp only [setStatus_status]
      by_cases h : i = s.curr
      · rw [if_pos h]
        exact (hio.2.2.2.2.2 h).2
      · rw [if_neg h]
        exact hio.2.2.2.2.1

theorem inv_thread_block_general {s s' : KState}
    (hb : thread_block s = some s')
    (hrun : s.status s.curr = .running)
    (huniq : ∀ t, s.status t = .running → t = s.curr)
    (hnodup : s.readyq.Nodup)
    (hready : ∀ t ∈ s.readyq, s.status t = .ready)
    (hdreq : ∀ t ∈ s.dreq, s.status t = .dying)
    (hsnodup : s.sleepers.Nodup)
    (hsleep2 : ∀ t ∈ s.sleepers, t = s.curr ∨ s.status t = .blocked)
    (hfree : ∀ p ∈ s.freeLog, p.1 ≠ p.2 ∧ s.status p.2 = .dying)
    (hidle : ∀ i, s.idleT = some i →
      i ∉ s.readyq ∧ i ∉ s.sleepers ∧ i ∉ s.dreq ∧ s.status i ≠ .dying ∧
      s.status i ≠ .unused) :
    Inv s' := by
  unfold thread_block at hb
  rw [if_pos hrun] at hb
  refine inv_of_schedule ?_ hb
  constructor
  · intro t
    simp only [setStatus_status]
    by_cases h : t = s.curr
    · rw [if_pos h]
      simp
    · rw [if_neg h]
      intro hr
      exact h (huniq t hr)
  · simpa using hnodup
  · intro t ht
    simp only [setStatus_readyq] at ht
    have he := hready t ht
    have hne : t ≠ s.curr := by
      intro h2
      rw [h2, hrun] at he
      cases he
    simp only [setStatus_status, if_neg hne]
    exact he
  · intro t ht
    simp only [setStatus_dreq] at ht
    have hd := hdreq t ht
    have hne : t ≠ s.curr := by
      intro h2
      rw [h2, hrun] at hd
      cases hd
    simp only [setStatus_status, if_neg hne]
    exact hd
  · simpa using hsnodup
  · intro t ht
    simp only [setStatus_sleepers] at ht
    simp only [setStatus_status]
    by_cases h : t = s.curr
    · rw [if_pos h]
    · rw [if_neg h]
      rcases hsleep2 t ht with he | he
      · exact absurd he h
      · exact he
  · intro p hp
    simp only [setStatus_freeLog] at hp
    have hf := hfree p hp
    have hne : p.2 ≠ s.curr := by
      intro he
      rw [he, hrun] at hf
      cases hf.2
    simp only [setStatus_status, if_neg hne]
    exact hf
  · intro i hi
    simp only [setStatus_idleT] at hi
    have hio := hidle i hi
    refine ⟨by simpa using hio.1, by simpa using hio.2.1, by simpa using hio.2.2.1,
      ?_, ?_⟩
    · simp only [setStatus_status]
      by_cases h : i = s.curr
      · rw [if_pos h]
        simp
      · rw [if_neg h]
        exact hio.2.2.2.1
    · simp only [setStatus_status]
      by_cases h : i = s.curr
      · rw [if_pos h]
        simp
      · rw [if_neg h]
        exact hio.2.2.2.2

theorem inv_thread_unblock_core {s s' : KState} {t : Nat}
    (hinv : Inv s) (hu : thread_unblock t s = some s')
    (hbt : s.status t = .blocked) (htsl : t ∉ s.sleepers)
    (htid : s.idleT ≠ some t) : Inv s' := by
  unfold thread_unblock at hu
  rw [if_pos hbt] at hu
  obtain rfl := Option.some.inj hu.symm
  have htc : t ≠ s.curr := by
    intro he
    rw [he, hinv.curr_running] at hbt
    cases hbt
  have htr : t ∉ s.readyq := by
    intro hm
    rw [hinv.ready_status t hm] at hbt
    cases hbt
  constructor
  · simp only [setStatus_curr, setStatus_status]
    rw [if_neg (fun h => htc h.symm)]
    exact hinv.curr_running
  · intro u hu2
    simp only [setStatus_status] at hu2
    by_cases h : u = t
    · rw [if_pos h] at hu2
      cases hu2
    · rw [if_neg h] at hu2
      simpa using hinv.running_unique u hu2
  · simp only [setStatus_readyq]
    rw [List.nodup_append]
    exact ⟨hinv.ready_nodup, List.nodup_singleton t, by simpa using htr⟩
  · intro u hu2
    simp only [setStatus_readyq] at hu2
    simp only [setStatus_status]
    rcases List.mem_append.mp hu2 with hm | hm
    · have hne : u ≠ t := fun he => htr (he ▸ hm)
      rw [if_neg hne]
      exact hinv.ready_status u hm
    · rw [if_pos (List.mem_singleton.mp hm)]
  · intro u hu2
    simp only [setStatus_dreq] at hu2
    have hd := hinv.dreq_status u hu2
    have hne : u ≠ t := by
      intro he
      rw [he, hbt] at hd
      cases hd
    simp only [setStatus_status, if_neg hne]
    exact hd
  · simpa using hinv.sleepers_nodup
  · intro u hu2
    simp only [setStatus_sleepers] at hu2
    have hne : u ≠ t := fun he => htsl (he ▸ hu2)
    simp only [setStatus_status, if_neg hne]
    exact hinv.sleepers_status u hu2
  · intro p hp
    simp only [setStatus_freeLog] at hp
    have hf := hinv.freeLog_ok p hp
    have hne : p.2 ≠ t := by
      intro he
      rw [he, hbt] at hf
      cases hf.2
    simp only [setStatus_status, if_neg hne]
    exact hf
  · intro i hi
    simp only [setStatus_idleT] at hi
    have hio := hinv.idle_ok i hi
    have hit : i ≠ t := by
      intro he
      exact htid (he ▸ hi)
    refine ⟨?_, by simpa using hio.2.1, by simpa using hio.2.2.1, ?_, ?_⟩
    · simp only [setStatus_readyq]
      rw [List.mem_append]
      rintro (hm | hm)
      · exact hio.1 hm
      · exact hit (List.mem_singleton.mp hm)
    · simp only [setStatus_status, if_neg hit]
      exact hio.2.2.2.1
    · simp only [setStatus_status, if_neg hit]
      exact hio.2.2.2.2

theorem inv_thread_create {s s' : KState} {t : Nat} {p : Int}
    (hinv : Inv s) (hc : thread_create t p s = some s') : Inv s' := by
  unfold thread_create at hc
  by_cases hu : s.status t = .unused
  · rw [if_pos hu] at hc
    unfold init_thread at hc
    by_cases hp : PRI_MIN ≤ p ∧ p ≤ PRI_MAX
    · rw [if_pos hp] at hc
      rw [Option.some_bind] at hc
      set s1 : KState :=
        { setStatus s t .blocked with prio := fun x => if x = t then p else s.prio x }
        with hs1
      have htc : t ≠ s.curr := by
        intro he
        rw [he, hinv.curr_running] at hu
        cases hu
      have htr : t ∉ s.readyq := by
        intro hm
        rw [hinv.ready_status t hm] at hu
        cases hu
      have htd : t ∉ s.dreq := by
        intro hm
        rw [hinv.dreq_status t hm] at hu
        cases hu
      have htsl : t ∉ s.sleepers := by
        intro hm
        rw [hinv.sleepers_status t hm] at hu
        cases hu
      have htid : s.idleT ≠ some t := by
        intro he
        exact (hinv.idle_ok t he).2.2.2.2 hu
      have hinv1 : Inv s1 := by
        constructor
        · show (if s.curr = t then TStatus.blocked else s.status s.curr) = .running
          rw [if_neg (fun h => htc h.symm)]
          exact hinv.curr_running
        · intro u hu2
          show u = s.curr
          by_cases h : u = t
          · rw [show s1.status u = .blocked by simp [hs1, setStatus, h]] at hu2
            cases hu2
          · rw [show s1.status u = s.status u by simp [hs1, setStatus, h]] at hu2
            exact hinv.running_unique u hu2
        · exact hinv.ready_nodup
        · intro u hu2
          have hne : u ≠ t := fun he => htr (he ▸ hu2)
          show (if u = t then TStatus.blocked else s.status u) = .ready
          rw [if_neg hne]
          exact hinv.ready_status u hu2
        · intro u hu2
          have hne : u ≠ t := fun he => htd (he ▸ hu2)
          show (if u = t then TStatus.blocked else s.status u) = .dying
          rw [if_neg hne]
          exact hinv.dreq_status u hu2
        · exact hinv.sleepers_nodup
        · intro u hu2
          have hne : u ≠ t := fun he => htsl (he ▸ hu2)
          show (if u = t then TStatus.blocked else s.status u) = .blocked
          rw [if_neg hne]
          exact hinv.sleepers_status u hu2
        · intro q hq
          have hf := hinv.freeLog_ok q hq
          have hne : q.2 ≠ t := by
            intro he
            rw [he, hu] at hf
            cases hf.2
          refine ⟨hf.1, ?_⟩
          show (if q.2 = t then TStatus.blocked else s.status q.2) = .dying
          rw [if_neg hne]
          exact hf.2
        · intro i hi
          have hio := hinv.idle_ok i (by simpa using hi)
          have hit : i ≠ t := by
            intro he
            exact htid (by rw [← he]; simpa using hi)
          refine ⟨hio.1, hio.2.1, hio.2.2.1, ?_, ?_⟩
          · show (if i = t then TStatus.blocked else s.status i) ≠ .dying
            rw [if_neg hit]
            exact hio.2.2.2.1
          · show (if i = t then TStatus.blocked else s.status i) ≠ .unused
            rw [if_neg hit]
            exact hio.2.2.2.2
      refine inv_thread_unblock_core hinv1 hc ?_ ?_ ?_
      · show (if t = t then TStatus.blocked else s.status t) = .blocked
        rw [if_pos rfl]
      · simpa using htsl
      · simpa using htid
    · rw [if_neg hp] at hc
      cases hc
  · rw [if_neg hu] at hc
    cases hc

theorem curr_not_mem {s : KState} (hinv : Inv s) :
    s.curr ∉ s.readyq ∧ s.curr ∉ s.sleepers ∧ s.curr ∉ s.dreq := by
  refine ⟨?_, ?_, ?_⟩
  · intro hm
    have h := hinv.ready_status _ hm
    rw [hinv.curr_running] at h
    cases h
  · intro hm
    have h := hinv.sleepers_status _ hm
    rw [hinv.curr_running] at h
    cases h
  · intro hm
    have h := hinv.dreq_status _ hm
    rw [hinv.curr_running] at h
    cases h

theorem inv_wake_sleeper {s s' : KState} {t : Nat}
    (hinv : Inv s) (hw : wake_sleeper t s = some s') : Inv s' := by
  unfold wake_sleeper at hw
  by_cases hm : t ∈ s.sleepers
  · rw [if_pos hm] at hw
    have hinv1 : Inv { s with sleepers := s.sleepers.erase t } := by
      constructor
      · exact hinv.curr_running
      · exact hinv.running_unique
      · exact hinv.ready_nodup
      · exact hinv.ready_status
      · exact hinv.dreq_status
      · exact hinv.sleepers_nodup.erase t
      · intro u hu2
        exact hinv.sleepers_status u (List.mem_of_mem_erase hu2)
      · exact hinv.freeLog_ok
      · intro i hi
        have hio := hinv.idle_ok i hi
        exact ⟨hio.1, fun hm2 => hio.2.1 (List.mem_of_mem_erase hm2), hio.2.2⟩
    refine inv_thread_unblock_core hinv1 hw ?_ ?_ ?_
    · exact hinv.sleepers_status t hm
    · show t ∉ s.sleepers.erase t
      intro hm2
      exact ((hinv.sleepers_nodup.mem_erase_iff).mp hm2).1 rfl
    · show s.idleT ≠ some t
      intro he
      exact (hinv.idle_ok t he).2.1 hm
  · rw [if_neg hm] at hw
    cases hw

theorem inv_set_priority {s s' : KState} {p : Int}
    (hinv : Inv s) (hsp : thread_set_priority p s = some s') : Inv s' := by
  unfold thread_set_priority at hsp
  rw [if_pos hinv.curr_running] at hsp
  obtain rfl := Option.some.inj hsp.symm
  constructor
  · exact hinv.curr_running
  · exact hinv.running_unique
  · exact hinv.ready_nodup
  · exact hinv.ready_status
  · exact hinv.dreq_status
  · exact hinv.sleepers_nodup
  · exact hinv.sleepers_status
  · exact hinv.freeLog_ok
  · exact hinv.idle_ok

theorem inv_thread_yield {s s' : KState}
    (hinv : Inv s) (hy : thread_yield s = some s') : Inv s' := by
  unfold thread_yield at hy
  rw [if_pos hinv.curr_running] at hy
  by_cases hid : s.idleT = some s.curr
  · rw [if_pos hid] at hy
    refine inv_do_schedule hy hinv.curr_running hinv.running_unique hinv.ready_nodup
      (fun t ht => Or.inr (hinv.ready_status t ht)) (fun _ => rfl) (by decide)
      hinv.dreq_status hinv.sleepers_nodup hinv.sleepers_status hinv.freeLog_ok ?_
    intro i hi
    have hio := hinv.idle_ok i hi
    exact ⟨hio.1, hio.2.1, hio.2.2.1, hio.2.2.2.1, hio.2.2.2.2,
      fun _ => ⟨by decide, by decide⟩⟩
  · rw [if_neg hid] at hy
    have hcr := (curr_not_mem hinv).1
    refine inv_do_schedule hy hinv.curr_running hinv.running_unique ?_ ?_
      (fun _ => rfl) (by decide) hinv.dreq_status hinv.sleepers_nodup
      hinv.sleepers_status hinv.freeLog_ok ?_
    · show (s.readyq ++ [s.curr]).Nodup
      rw [List.nodup_append]
      exact ⟨hinv.ready_nodup, List.nodup_singleton _, by simpa using hcr⟩
    · intro u hu2
      rcases List.mem_append.mp hu2 with hm2 | hm2
      · exact Or.inr (hinv.ready_status u hm2)
      · exact Or.inl (List.mem_singleton.mp hm2)
    · intro i hi
      have hio := hinv.idle_ok i hi
      have hic : i ≠ s.curr := by
        intro he
        exact hid (he ▸ hi)
      refine ⟨?_, hio.2.1, hio.2.2.1, hio.2.2.2.1, hio.2.2.2.2,
        fun _ => ⟨by decide, by decide⟩⟩
      show i ∉ s.readyq ++ [s.curr]
      rw [List.mem_append]
      rintro (hm2 | hm2)
      · exact hio.1 hm2
      · exact hic (List.mem_singleton.mp hm2)

theorem inv_exit_ev {s s' : KState}
    (hinv : Inv s) (hid : s.idleT ≠ some s.curr) (he : thread_exit s = some s') :
    Inv s' := by
  unfold thread_exit at he
  refine inv_do_schedule he hinv.curr_running hinv.running_unique hinv.ready_nodup
    (fun t ht => Or.inr (hinv.ready_status t ht)) ?_ (by decide) hinv.dreq_status
    hinv.sleepers_nodup hinv.sleepers_status hinv.freeLog_ok ?_
  · intro hc
    exact absurd hc (curr_not_mem hinv).1
  · intro i hi
    have hio := hinv.idle_ok i hi
    refine ⟨hio.1, hio.2.1, hio.2.2.1, hio.2.2.2.1, hio.2.2.2.2, ?_⟩
    intro hic
    exact absurd (hic ▸ hi) hid

theorem inv_sleep_ev {s s' : KState}
    (hinv : Inv s) (hs : timer_sleep s = some s') : Inv s' := by
  unfold timer_sleep at hs
  by_cases hid : s.idleT = some s.curr
  · rw [if_pos hid] at hs
    cases hs
  · rw [if_neg hid, if_pos hinv.curr_running] at hs
    have hcsl := (curr_not_mem hinv).2.1
    refine inv_thread_block_general hs hinv.curr_running hinv.running_unique
      hinv.ready_nodup hinv.ready_status hinv.dreq_status ?_ ?_ hinv.freeLog_ok ?_
    · show (s.sleepers ++ [s.curr]).Nodup
      rw [List.nodup_append]
      exact ⟨hinv.sleepers_nodup, List.nodup_singleton _, by simpa using hcsl⟩
    · intro t ht
      rcases List.mem_append.mp ht with hm | hm
      · exact Or.inr (hinv.sleepers_status t hm)
      · exact Or.inl (List.mem_singleton.mp hm)
    · intro i hi
      have hio := hinv.idle_ok i hi
      refine ⟨hio.1, ?_, hio.2.2.1, hio.2.2.2.1, hio.2.2.2.2⟩
      show i ∉ s.sleepers ++ [s.curr]
      rw [List.mem_append]
      rintro (hm | hm)
      · exact hio.2.1 hm
      · exact hid ((List.mem_singleton.mp hm) ▸ hi)

theorem inv_block_ev {s s' : KState}
    (hinv : Inv s) (hb : thread_block s = some s') : Inv s' :=
  inv_thread_block_general hb hinv.curr_running hinv.running_unique
    hinv.ready_nodup hinv.ready_status hinv.dreq_status hinv.sleepers_nodup
    (fun t ht => Or.inr (hinv.sleepers_status t ht)) hinv.freeLog_ok hinv.idle_ok

theorem inv_idle_register {s s' : KState}
    (hinv : Inv s) (hr : idle_register s = some s') : Inv s' := by
  unfold idle_register at hr
  by_cases hid : s.idleT = none
  · rw [if_pos hid] at hr
    have hcm := curr_not_mem hinv
    refine inv_thread_block_general hr hinv.curr_running hinv.running_unique
      hinv.ready_nodup hinv.ready_status hinv.dreq_status hinv.sleepers_nodup
      (fun t ht => Or.inr (hinv.sleepers_status t ht)) hinv.freeLog_ok ?_
    intro i hi
    have hic : s.curr = i := Option.some.inj hi
    subst hic
    refine ⟨hcm.1, hcm.2.1, hcm.2.2, ?_, ?_⟩
    · rw [hinv.curr_running]
      decide
    · rw [hinv.curr_running]
      decide
  · rw [if_neg hid] at hr
    cases hr

theorem inv_kstep {s s' : KState} (hinv : Inv s) (ev : KEv)
    (h : kstep ev s = some s') : Inv s' := by
  cases ev with
  | create t p => exact inv_thread_create hinv h
  | yield => exact inv_thread_yield hinv h
  | exit =>
    rw [show kstep .exit s =
      (if s.idleT = some s.curr then none else thread_exit s) from rfl] at h
    by_cases hid : s.idleT = some s.curr
    · rw [if_pos hid] at h
      cases h
    · rw [if_neg hid] at h
      exact inv_exit_ev hinv hid h
  | sleep => exact inv_sleep_ev hinv h
  | wake t => exact inv_wake_sleeper hinv h
  | unblock t =>
    rw [show kstep (.unblock t) s =
      (if s.idleT = some t ∨ t ∈ s.sleepers then none else thread_unblock t s)
      from rfl] at h
    by_cases hg : s.idleT = some t ∨ t ∈ s.sleepers
    · rw [if_pos hg] at h
      cases h
    · rw [if_neg hg] at h
      push_neg at hg
      by_cases hbt : s.status t = .blocked
      · exact inv_thread_unblock_core hinv h hbt hg.2 hg.1
      · unfold thread_unblock at h
        rw [if_neg hbt] at h
        cases h
  | block => exact inv_block_ev hinv h
  | setPrio p => exact inv_set_priority hinv h
  | idleReg => exact inv_idle_register hinv h

theorem inv_bootK : Inv bootK := by
  constructor
  · rfl
  · intro t ht
    by_cases h : t = initialTid
    · exact h
    · exfalso
      have ht2 : bootK.status t = .unused := by simp [bootK, h]
      rw [ht2] at ht
      cases ht
  · exact List.nodup_nil
  · intro t ht
    cases ht
  · intro t ht
    cases ht
  · exact List.nodup_nil
  · intro t ht
    cases ht
  · intro p hp
    cases hp
  · intro i hi
    cases hi

theorem inv_runK : ∀ (evs : List KEv) (s0 s : KState),
    Inv s0 → runK s0 evs = some s → Inv s := by
  intro evs
  induction evs with
  | nil =>
    intro s0 s h0 hr
    obtain rfl := Option.some.inj hr
    exact h0
  | cons ev evs ih =>
    intro s0 s h0 hr
    rcases Option.bind_eq_some.mp hr with ⟨s1, h1, h2⟩
    exact ih s1 s (inv_kstep h0 ev h1) h2

/-! ## Scheduler: a sleeper's status only changes through the wake scan -/

theorem schedule_status_stable {s2 s' : KState} (hs : schedule s2 = some s')
    {t : Nat} (hnr : t ∉ s2.readyq) (hni : s2.idleT ≠ some t) :
    s'.status t = s2.status t := by
  obtain ⟨-, next, rq, rfl, hpick⟩ := schedule_cases hs
  rw [schedule_core_status]
  have hne : t ≠ next := by
    intro he
    subst he
    rcases hpick with h | ⟨h1, h2, h3⟩
    · exact hnr (by rw [h]; exact List.mem_cons_self _ _)
    · exact hni h3
  rw [if_neg hne]

theorem do_schedule_status_stable {st : TStatus} {s s' : KState}
    (hd : do_schedule st s = some s') {t : Nat} (hc : t ≠ s.curr)
    (hnr : t ∉ s.readyq) (hni : s.idleT ≠ some t) :
    s'.status t = s.status t := by
  unfold do_schedule at hd
  by_cases hr : s.status s.curr = .running
  · rw [if_pos hr] at hd
    have h2 := schedule_status_stable hd (t := t) (by simpa using hnr) (by simpa using hni)
    rw [h2]
    simp only [setStatus_status, if_neg hc]
  · rw [if_neg hr] at hd
    cases hd

theorem thread_block_status_stable {s s' : KState}
    (hb : thread_block s = some s') {t : Nat} (hc : t ≠ s.curr)
    (hnr : t ∉ s.readyq) (hni : s.idleT ≠ some t) :
    s'.status t = s.status t := by
  unfold thread_block at hb
  by_cases hr : s.status s.curr = .running
  · rw [if_pos hr] at hb
    have h2 := schedule_status_stable hb (t := t) (by simpa using hnr) (by simpa using hni)
    rw [h2]
    simp only [setStatus_status, if_neg hc]
  · rw [if_neg hr] at hb
    cases hb

theorem sleeper_wake_only {s s' : KState} (hinv : Inv s) {t : Nat}
    (hts : t ∈ s.sleepers) (ev : KEv) (hstep : kstep ev s = some s')
    (hnb : s'.status t ≠ .blocked) : ev = .wake t := by
  have hbt : s.status t = .blocked := hinv.sleepers_status t hts
  have htc : t ≠ s.curr := by
    intro he
    rw [he, hinv.curr_running] at hbt
    cases hbt
  have htr : t ∉ s.readyq := by
    intro hm
    rw [hinv.ready_status t hm] at hbt
    cases hbt
  have hti : s.idleT ≠ some t := by
    intro he
    exact (hinv.idle_ok t he).2.1 hts
  cases ev with
  | create u p =>
    exfalso
    apply hnb
    rw [show kstep (.create u p) s = thread_create u p s from rfl] at hstep
    unfold thread_create at hstep
    by_cases hu : s.status u = .unused
    · have htu : t ≠ u := by
        intro he
        rw [he, hu] at hbt
        cases hbt
      rw [if_pos hu] at hstep
      unfold init_thread at hstep
      by_cases hp : PRI_MIN ≤ p ∧ p ≤ PRI_MAX
      · rw [if_pos hp, Option.some_bind] at hstep
        unfold thread_unblock at hstep
        split at hstep
        · obtain rfl := Option.some.inj hstep
          simp only [setStatus_status, setStatus]
          simp only [if_neg htu]
          exact hbt
        · cases hstep
      · rw [if_neg hp] at hstep
        cases hstep
    · rw [if_neg hu] at hstep
      cases hstep
  | yield =>
    exfalso
    apply hnb
    rw [show kstep .yield s = thread_yield s from rfl] at hstep
    unfold thread_yield at hstep
    rw [if_pos hinv.curr_running] at hstep
    by_cases hid : s.idleT = some s.curr
    · rw [if_pos hid] at hstep
      rw [do_schedule_status_stable hstep htc htr hti]
      exact hbt
    · rw [if_neg hid] at hstep
      have h2 := do_schedule_status_stable hstep (t := t) htc ?_ hti
      · rw [h2]
        exact hbt
      · show t ∉ s.readyq ++ [s.curr]
        rw [List.mem_append]
        rintro (hm | hm)
        · exact htr hm
        · exact htc (List.mem_singleton.mp hm)
  | exit =>
    exfalso
    apply hnb
    rw [show kstep .exit s =
      (if s.idleT = some s.curr then none else thread_exit s) from rfl] at hstep
    by_cases hid : s.idleT = some s.curr
    · rw [if_pos hid] at hstep
      cases hstep
    · rw [if_neg hid] at hstep
      unfold thread_exit at hstep
      rw [do_schedule_status_stable hstep htc htr hti]
      exact hbt
  | sleep =>
    exfalso
    apply hnb
    rw [show kstep .sleep s = timer_sleep s from rfl] at hstep
    unfold timer_sleep at hstep
    by_cases hid : s.idleT = some s.curr
    · rw [if_pos hid] at hstep
      cases hstep
    · rw [if_neg hid, if_pos hinv.curr_running] at hstep
      have h2 := thread_block_status_stable hstep (t := t) htc htr hti
      rw [h2]
      exact hbt
  | wake u =>
    by_cases hut : u = t
    · rw [hut]
    · exfalso
      apply hnb
      rw [show kstep (.wake u) s = wake_sleeper u s from rfl] at hstep
      unfold wake_sleeper at hstep
      by_cases hm : u ∈ s.sleepers
      · rw [if_pos hm] at hstep
        unfold thread_unblock at hstep
        split at hstep
        · obtain rfl := Option.some.inj hstep
          simp only [setStatus_status]
          rw [if_neg (fun he => hut he.symm)]
          exact hbt
        · cases hstep
      · rw [if_neg hm] at hstep
        cases hstep
  | unblock u =>
    exfalso
    apply hnb
    rw [show kstep (.unblock u) s =
      (if s.idleT = some u ∨ u ∈ s.sleepers then none else thread_unblock u s)
      from rfl] at hstep
    by_cases hg : s.idleT = some u ∨ u ∈ s.sleepers
    · rw [if_pos hg] at hstep
      cases hstep
    · rw [if_neg hg] at hstep
      push_neg at hg
      have htu : t ≠ u := by
        intro he
        exact hg.2 (he ▸ hts)
      unfold thread_unblock at hstep
      by_cases hbu : s.status u = .blocked
      · rw [if_pos hbu] at hstep
        obtain rfl := Option.some.inj hstep.symm
        show (if t = u then TStatus.ready else s.status t) = .blocked
        rw [if_neg htu]
        exact hbt
      · rw [if_neg hbu] at hstep
        cases hstep
  | block =>
    exfalso
    apply hnb
    rw [show kstep .block s = thread_block s from rfl] at hstep
    rw [thread_block_status_stable hstep htc htr hti]
    exact hbt
  | setPrio p =>
    exfalso
    apply hnb
    rw [show kstep (.setPrio p) s = thread_set_priority p s from rfl] at hstep
    unfold thread_set_priority at hstep
    rw [if_pos hinv.curr_running] at hstep
    obtain rfl := Option.some.inj hstep.symm
    exact hbt
  | idleReg =>
    exfalso
    apply hnb
    rw [show kstep .idleReg s = idle_register s from rfl] at hstep
    unfold idle_register at hstep
    by_cases hid : s.idleT = none
    · rw [if_pos hid] at hstep
      have h2 := thread_block_status_stable hstep (t := t) htc htr ?_
      · rw [h2]
        exact hbt
      · show some s.curr ≠ some t
        intro he
        exact htc (Option.some.inj he).symm
    · rw [if_neg hid] at hstep
      cases hstep

/-! ## Scheduler: destruction list and priority bookkeeping -/

theorem do_schedule_freeLog {st : TStatus} {s s' : KState}
    (h : do_schedule st s = some s') :
    s'.freeLog = s.freeLog ++ s.dreq.map (fun v => (s.curr, v)) := by
  unfold do_schedule at h
  by_cases hr : s.status s.curr = .running
  · rw [if_pos hr] at h
    rw [schedule_freeLog h]
    rfl
  · rw [if_neg hr] at h
    cases h

theorem thread_exit_pushes {s s' : KState} (hinv : Inv s)
    (he : thread_exit s = some s') (hne : next_thread_to_run s ≠ some s.curr)
    (hinit : s.curr ≠ initialTid) : s.curr ∈ s'.dreq := by
  unfold thread_exit do_schedule at he
  rw [if_pos hinv.curr_running] at he
  obtain ⟨hnr, next, rq, rfl, hpick⟩ := schedule_cases he
  have hcn : s.curr ≠ next := by
    intro heq
    subst heq
    apply hne
    unfold next_thread_to_run
    rcases hpick with h | ⟨h1, h2, h3⟩
    · have h4 : s.readyq = s.curr :: rq := h
      rw [h4]
    · have h4 : s.readyq = [] := h1
      have h5 : s.idleT = some s.curr := h3
      rw [h4, h5]
  rw [schedule_core_dreq]
  split
  · simp
  · next hguard =>
    exfalso
    apply hguard
    refine ⟨hcn, ?_, hinit⟩
    show (if s.curr = s.curr then TStatus.dying else _) = .dying
    rw [if_pos rfl]

theorem schedule_prio {s s' : KState} (h : schedule s = some s') :
    s'.prio = s.prio := by
  obtain ⟨-, next, rq, rfl, -⟩ := schedule_cases h
  simp

theorem do_schedule_prio {st : TStatus} {s s' : KState}
    (h : do_schedule st s = some s') : s'.prio = s.prio := by
  unfold do_schedule at h
  by_cases hr : s.status s.curr = .running
  · rw [if_pos hr] at h
    rw [schedule_prio h]
    rfl
  · rw [if_neg hr] at h
    cases h

theorem thread_block_prio {s s' : KState} (h : thread_block s = some s') :
    s'.prio = s.prio := by
  unfold thread_block at h
  by_cases hr : s.status s.curr = .running
  · rw [if_pos hr] at h
    rw [schedule_prio h]
    rfl
  · rw [if_neg hr] at h
    cases h

theorem thread_unblock_prio {t : Nat} {s s' : KState}
    (h : thread_unblock t s = some s') : s'.prio = s.prio := by
  unfold thread_unblock at h
  split at h
  · obtain rfl := Option.some.inj h
    rfl
  · cases h

theorem kstep_prio {ev : KEv} {s s' : KState} (h : kstep ev s = some s')
    (hev : ∀ p : Int, ev = .setPrio p → PRI_MIN ≤ p ∧ p ≤ PRI_MAX)
    (hall : ∀ t, PRI_MIN ≤ s.prio t ∧ s.prio t ≤ PRI_MAX) :
    ∀ t, PRI_MIN ≤ s'.prio t ∧ s'.prio t ≤ PRI_MAX := by
  cases ev with
  | create u p =>
    rw [show kstep (.create u p) s = thread_create u p s from rfl] at h
    unfold thread_create at h
    by_cases hu : s.status u = .unused
    · rw [if_pos hu] at h
      unfold init_thread at h
      by_cases hp : PRI_MIN ≤ p ∧ p ≤ PRI_MAX
      · rw [if_pos hp, Option.some_bind] at h
        unfold thread_unblock at h
        split at h
        · obtain rfl := Option.some.inj h
          intro t
          show PRI_MIN ≤ (if t = u then p else s.prio t) ∧
            (if t = u then p else s.prio t) ≤ PRI_MAX
          by_cases htu : t = u
          · rw [if_pos htu]
            exact hp
          · rw [if_neg htu]
            exact hall t
        · cases h
      · rw [if_neg hp] at h
        cases h
    · rw [if_neg hu] at h
      cases h
  | yield =>
    rw [show kstep .yield s = thread_yield s from rfl] at h
    unfold thread_yield at h
    by_cases hr : s.status s.curr = .running
    · rw [if_pos hr] at h
      by_cases hid : s.idleT = some s.curr
      · rw [if_pos hid] at h
        rw [do_schedule_prio h]
        exact hall
      · rw [if_neg hid] at h
        rw [do_schedule_prio h]
        exact hall
    · rw [if_neg hr] at h
      cases h
  | exit =>
    rw [show kstep .exit s =
      (if s.idleT = some s.curr then none else thread_exit s) from rfl] at h
    by_cases hid : s.idleT = some s.curr
    · rw [if_pos hid] at h
      cases h
    · rw [if_neg hid] at h
      unfold thread_exit at h
      rw [do_schedule_prio h]
      exact hall
  | sleep =>
    rw [show kstep .sleep s = timer_sleep s from rfl] at h
    unfold timer_sleep at h
    by_cases hid : s.idleT = some s.curr
    · rw [if_pos hid] at h
      cases h
    · rw [if_neg hid] at h
      by_cases hr : s.status s.curr = .running
      · rw [if_pos hr] at h
        rw [thread_block_prio h]
        exact hall
      · rw [if_neg hr] at h
        cases h
  | wake u =>
    rw [show kstep (.wake u) s = wake_sleeper u s from rfl] at h
    unfold wake_sleeper at h
    by_cases hm : u ∈ s.sleepers
    · rw [if_pos hm] at h
      rw [thread_unblock_prio h]
      exact hall
    · rw [if_neg hm] at h
      cases h
  | unblock u =>
    rw [show kstep (.unblock u) s =
      (if s.idleT = some u ∨ u ∈ s.sleepers then none else thread_unblock u s)
      from rfl] at h
    by_cases hg : s.idleT = some u ∨ u ∈ s.sleepers
    · rw [if_pos hg] at h
      cases h
    · rw [if_neg hg] at h
      rw [thread_unblock_prio h]
      exact hall
  | block =>
    rw [show kstep .block s = thread_block s from rfl] at h
    rw [thread_block_prio h]
    exact hall
  | setPrio p =>
    rw [show kstep (.setPrio p) s = thread_set_priority p s from rfl] at h
    unfold thread_set_priority at h
    by_cases hr : s.status s.curr = .running
    · rw [if_pos hr] at h
      obtain rfl := Option.some.inj h
      intro t
      show PRI_MIN ≤ (if t = s.curr then p else s.prio t) ∧
        (if t = s.curr then p else s.prio t) ≤ PRI_MAX
      by_cases htc : t = s.curr
      · rw [if_pos htc]
        exact hev p rfl
      · rw [if_neg htc]
        exact hall t
    · rw [if_neg hr] at h
      cases h
  | idleReg =>
    rw [show kstep .idleReg s = idle_register s from rfl] at h
    unfold idle_register at h
    by_cases hid : s.idleT = none
    · rw [if_pos hid] at h
      rw [thread_block_prio h]
      exact hall
    · rw [if_neg hid] at h
      cases h

theorem runK_prio : ∀ (evs : List KEv) (s0 s : KState),
    runK s0 evs = some s →
    (∀ p : Int, KEv.setPrio p ∈ evs → PRI_MIN ≤ p ∧ p ≤ PRI_MAX) →
    (∀ t, PRI_MIN ≤ s0.prio t ∧ s0.prio t ≤ PRI_MAX) →
    ∀ t, PRI_MIN ≤ s.prio t ∧ s.prio t ≤ PRI_MAX := by
  intro evs
  induction evs with
  | nil =>
    intro s0 s hr hev hall
    obtain rfl := Option.some.inj hr
    exact hall
  | cons ev evs ih =>
    intro s0 s hr hev hall
    rcases Option.bind_eq_some.mp hr with ⟨s1, h1, h2⟩
    refine ih s1 s h2 (fun p hp => hev p (List.mem_cons_of_mem _ hp)) ?_
    exact kstep_prio h1 (fun p hp => hev p (hp ▸ List.mem_cons_self _ _)) hall

end Kernel

/-! ## Timer: the two sleeper scenario -/

namespace Timer

theorem two_sleeper_run (T N M : Int) (A B : Nat) (stQ : Nat → TStatus)
    (pr : Nat → Int) (hN : 0 < N) (hNM : N < M) :
    (∀ k : Nat, (k : Int) < N →
      tickIter k ⟨T, [⟨T + N, A, pr A⟩, ⟨T + M, B, pr B⟩], [], stQ, [], pr⟩ =
        ⟨T + k, [⟨T + N, A, pr A⟩, ⟨T + M, B, pr B⟩], [], stQ, [], pr⟩) ∧
    (tickIter N.toNat ⟨T, [⟨T + N, A, pr A⟩, ⟨T + M, B, pr B⟩], [], stQ, [], pr⟩ =
      ⟨T + N, [⟨T + M, B, pr B⟩], [⟨T + N, A, pr A⟩],
        fun x => if x = A then .ready else stQ x, [(T + N, A)], pr⟩) ∧
    (∀ k : Nat, M ≤ (k : Int) →
      tickIter k ⟨T, [⟨T + N, A, pr A⟩, ⟨T + M, B, pr B⟩], [], stQ, [], pr⟩ =
        ⟨T + k, [], [⟨T + N, A, pr A⟩, ⟨T + M, B, pr B⟩],
          fun x => if x = B then .ready else if x = A then .ready else stQ x,
          [(T + N, A), (T + M, B)], pr⟩) := by
  have key1 : tickIter N.toNat
      (⟨T, [⟨T + N, A, pr A⟩, ⟨T + M, B, pr B⟩], [], stQ, [], pr⟩ : TState) =
      ⟨T + N, [⟨T + M, B, pr B⟩], [⟨T + N, A, pr A⟩],
        fun x => if x = A then .ready else stQ x, [(T + N, A)], pr⟩ := by
    have hidx : ((⟨T + N, A, pr A⟩ : SleepEntry).wake -
        (⟨T, [⟨T + N, A, pr A⟩, ⟨T + M, B, pr B⟩], [], stQ, [], pr⟩ : TState).ticks).toNat
        = N.toNat := by
      show ((T + N) - T).toNat = N.toNat
      omega
    rw [← hidx]
    exact run_to_wake rfl (by show T < T + N; omega)
      (by
        intro x hx
        simp only [List.mem_singleton] at hx
        subst hx
        show T + N < T + M
        omega)
  have key2 : tickIter (M.toNat - N.toNat)
      (⟨T + N, [⟨T + M, B, pr B⟩], [⟨T + N, A, pr A⟩],
        fun x => if x = A then .ready else stQ x, [(T + N, A)], pr⟩ : TState) =
      ⟨T + M, [], [⟨T + N, A, pr A⟩, ⟨T + M, B, pr B⟩],
        fun x => if x = B then .ready else if x = A then .ready else stQ x,
        [(T + N, A), (T + M, B)], pr⟩ := by
    have hidx : ((⟨T + M, B, pr B⟩ : SleepEntry).wake -
        (⟨T + N, [⟨T + M, B, pr B⟩], [⟨T + N, A, pr A⟩],
          fun x => if x = A then .ready else stQ x, [(T + N, A)], pr⟩ : TState).ticks).toNat
        = M.toNat - N.toNat := by
      show ((T + M) - (T + N)).toNat = M.toNat - N.toNat
      omega
    rw [← hidx]
    exact run_to_wake rfl (by show T + N < T + M; omega)
      (by
        intro x hx
        exact absurd hx (List.not_mem_nil x))
  refine ⟨?_, key1, ?_⟩
  · intro k hk
    refine tickIter_quiet ?_
    intro e he
    simp only [List.mem_cons, List.not_mem_nil, or_false] at he
    rcases he with rfl | rfl
    · show T + (k : Int) < T + N
      omega
    · show T + (k : Int) < T + M
      omega
  · intro k hk
    have hsplit : k = N.toNat + ((M.toNat - N.toNat) + (k - M.toNat)) := by omega
    rw [hsplit, tickIter_add, key1, tickIter_add, key2]
    rw [tickIter_quiet (by intro e he; exact absurd he (List.not_mem_nil e))]
    apply TState.extEq
    · show T + M + ((k - M.toNat : Nat) : Int) = T + ((N.toNat + ((M.toNat - N.toNat) + (k - M.toNat)) : Nat) : Int)
      omega
    · rfl
    · rfl
    · rfl
    · rfl
    · rfl

end Timer

/-! ## Claims C1 through C5 -/

/-- Claim C1: a thread A that calls timer_sleep N with N > 0 while the tick
counter reads T is still blocked after every earlier interrupt (so in
particular while the counter reads T + N - 1, after N - 1 interrupts), is
unblocked exactly during the timer interrupt that advances the counter to
T + N, with that unblock logged at counter value T + N and no wake logged
before it; a second sleeper B with the later wake tick T + M is woken
strictly after A (the log lists A before B); and in the scheduler model a
thread registered in the sleep queue leaves BLOCKED only through the wake
scan event: every other scheduler entry point preserves its BLOCKED
status. -/
theorem C1_timer_sleep_exact_wake (T N M : Int) (A B : Nat)
    (st0 : Nat → TStatus) (pr : Nat → Int)
    (hN : 0 < N) (hNM : N < M) (hAB : A ≠ B) :
    (∀ k : Nat, (Timer.tickIter k (Timer.sleepScenario T N M A B st0 pr)).ticks
      = T + k) ∧
    (∀ k : Nat, (k : Int) < N →
      (Timer.tickIter k (Timer.sleepScenario T N M A B st0 pr)).status A = .blocked ∧
      (Timer.tickIter k (Timer.sleepScenario T N M A B st0 pr)).log = []) ∧
    ((Timer.tickIter N.toNat (Timer.sleepScenario T N M A B st0 pr)).status A
      = .ready ∧
     (Timer.tickIter N.toNat (Timer.sleepScenario T N M A B st0 pr)).log
      = [(T + N, A)]) ∧
    (∀ k : Nat, M ≤ (k : Int) →
      (Timer.tickIter k (Timer.sleepScenario T N M A B st0 pr)).log =
        [(T + N, A), (T + M, B)]) ∧
    (∀ (evs : List Kernel.KEv) (s s' : Kernel.KState) (ev : Kernel.KEv) (t : Nat),
      Kernel.runK Kernel.bootK evs = some s → t ∈ s.sleepers →
      Kernel.kstep ev s = some s' → s'.status t ≠ .blocked → ev = .wake t) := by
  have hscen := Timer.sleepScenario_eq T N M A B st0 pr hN hNM
  have hrun := Timer.two_sleeper_run T N M A B
    (fun x => if x = B then .blocked else if x = A then .blocked else st0 x)
    pr hN hNM
  refine ⟨?_, ?_, ?_, ?_, ?_⟩
  · intro k
    rw [Timer.tickIter_ticks, hscen]
  · intro k hk
    rw [hscen, hrun.1 k hk]
    constructor
    · show (if A = B then TStatus.blocked
        else if A = A then TStatus.blocked else st0 A) = .blocked
      rw [if_neg hAB, if_pos rfl]
    · rfl
  · rw [hscen, hrun.2.1]
    constructor
    · show (if A = A then TStatus.ready else _) = .ready
      rw [if_pos rfl]
    · rfl
  · intro k hk
    rw [hscen, hrun.2.2 k hk]
  · intro evs s s' ev t h1 h2 h3 h4
    exact Kernel.sleeper_wake_only
      (Kernel.inv_runK evs Kernel.bootK s Kernel.inv_bootK h1) h2 ev h3 h4

/-- Witness for C1: at tick 0 thread 1 sleeps 3 ticks and thread 2 sleeps
5 ticks; after 2 interrupts thread 1 is still blocked, after 3 it is
ready, and after 5 the wake log lists thread 1 strictly before thread 2. -/
theorem C1_timer_sleep_exact_wake_witness :
    (Timer.tickIter 2 (Timer.sleepScenario 0 3 5 1 2
      (fun _ => .running) (fun _ => 31))).status 1 = .blocked ∧
    (Timer.tickIter (3 : Int).toNat (Timer.sleepScenario 0 3 5 1 2
      (fun _ => .running) (fun _ => 31))).status 1 = .ready ∧
    (Timer.tickIter 5 (Timer.sleepScenario 0 3 5 1 2
      (fun _ => .running) (fun _ => 31))).log = [(3, 1), (5, 2)] :=
  ⟨((C1_timer_sleep_exact_wake 0 3 5 1 2 (fun _ => .running) (fun _ => 31)
      (by decide) (by decide) (by decide)).2.1 2 (by decide)).1,
   ((C1_timer_sleep_exact_wake 0 3 5 1 2 (fun _ => .running) (fun _ => 31)
      (by decide) (by decide) (by decide)).2.2.1).1,
   by
    have h := (C1_timer_sleep_exact_wake 0 3 5 1 2 (fun _ => .running)
      (fun _ => 31) (by decide) (by decide) (by decide)).2.2.2.1 5 (by decide)
    simpa using h⟩

/-- Claim C2: the freeing of a dying thread's page is deferred: in every
state reachable from boot, no recorded page free has the freeing thread
equal to the freed thread; no thread on the destruction list is the
running thread; when the running thread exits (do_schedule with
THREAD_DYING) and the incoming thread differs from it and it is not the
bootstrap thread, its page is not freed during that switch but it is
pushed onto the destruction list; and every do_schedule call first frees
exactly the queued pages, each free performed by the thread current at
that call. -/
theorem C2_deferred_page_free (evs : List Kernel.KEv) (s : Kernel.KState)
    (hrun : Kernel.runK Kernel.bootK evs = some s) :
    (∀ p ∈ s.freeLog, p.1 ≠ p.2) ∧
    (∀ v ∈ s.dreq, v ≠ s.curr) ∧
    (∀ s', Kernel.thread_exit s = some s' →
      Kernel.next_thread_to_run s ≠ some s.curr → s.curr ≠ Kernel.initialTid →
      s.curr ∈ s'.dreq ∧ (∀ p ∈ s'.freeLog, p ∉ s.freeLog → p.2 ≠ s.curr)) ∧
    (∀ (st : TStatus) (s' : Kernel.KState), Kernel.do_schedule st s = some s' →
      s'.freeLog = s.freeLog ++ s.dreq.map (fun v => (s.curr, v))) := by
  have hinv := Kernel.inv_runK evs Kernel.bootK s Kernel.inv_bootK hrun
  refine ⟨fun p hp => (hinv.freeLog_ok p hp).1, ?_, ?_,
    fun st s' h => Kernel.do_schedule_freeLog h⟩
  · intro v hv he
    have hd := hinv.dreq_status v hv
    rw [he, hinv.curr_running] at hd
    cases hd
  · intro s' he hne hinit
    refine ⟨Kernel.thread_exit_pushes hinv he hne hinit, ?_⟩
    intro p hp hnotold
    have hlog := Kernel.do_schedule_freeLog
      (show Kernel.do_schedule TStatus.dying s = some s' from he)
    rw [hlog] at hp
    rcases List.mem_append.mp hp with h | h
    · exact absurd h hnotold
    · obtain ⟨v, hv, rfl⟩ := List.mem_map.mp h
      intro he2
      have he3 : v = s.curr := he2
      rw [he3] at hv
      have hd := hinv.dreq_status _ hv
      rw [hinv.curr_running] at hd
      cases hd

/-- Witness for C2: boot, create thread 1, yield to it, thread 1 exits;
thread 1 lands on the destruction list of the state where thread 0 runs. -/
theorem C2_deferred_page_free_witness :
    ∃ s, Kernel.runK Kernel.bootK [.create 1 31, .yield, .exit] = some s ∧
      (∀ p ∈ s.freeLog, p.1 ≠ p.2) ∧ (∀ v ∈ s.dreq, v ≠ s.curr) :=
  ⟨_, rfl, (C2_deferred_page_free [.create 1 31, .yield, .exit] _ rfl).1,
    (C2_deferred_page_free [.create 1 31, .yield, .exit] _ rfl).2.1⟩

/-- Counterexample for C3 as frozen: during thread_start the thread that
will later register itself as the idle thread is created with
thread_create, which unblocks it into the ready queue; so the idle thread
does appear inside the ready queue during startup. The trace below is
thread_start: create the idle thread (priority PRI_MIN), the main thread
blocks on the startup semaphore, the idle thread runs and registers
itself; right after the create, thread 1 is in the ready queue, and it is
the very thread later stored in idle_thread. -/
theorem C3_idle_in_ready_during_start :
    ∃ s1 s2, Kernel.runK Kernel.bootK [.create 1 0] = some s1 ∧
      Kernel.runK Kernel.bootK [.create 1 0, .block, .idleReg] = some s2 ∧
      (1 : Nat) ∈ s1.readyq ∧ s2.idleT = some 1 :=
  ⟨_, _, rfl, rfl, by decide, rfl⟩

/-- Claim C3, amended: in every reachable state, next_thread_to_run yields
the idle thread exactly when the ready queue is empty, and from the moment
the idle thread registers itself in idle_thread it never appears inside
the ready queue (before that registration the newly created idle thread
does pass through the ready queue once, during thread_start). -/
theorem C3_idle_fallback_selection (evs : List Kernel.KEv) (s : Kernel.KState)
    (hrun : Kernel.runK Kernel.bootK evs = some s) :
    (s.readyq = [] → Kernel.next_thread_to_run s = s.idleT) ∧
    (∀ i, s.idleT = some i → i ∉ s.readyq) ∧
    (∀ i, s.idleT = some i → s.readyq ≠ [] →
      Kernel.next_thread_to_run s ≠ some i) := by
  have hinv := Kernel.inv_runK evs Kernel.bootK s Kernel.inv_bootK hrun
  refine ⟨?_, fun i hi => (hinv.idle_ok i hi).1, ?_⟩
  · intro hq
    unfold Kernel.next_thread_to_run
    rw [hq]
  · intro i hi hne hc
    unfold Kernel.next_thread_to_run at hc
    cases hq : s.readyq with
    | nil => exact hne hq
    | cons t r =>
      rw [hq] at hc
      have h2 : some t = some i := hc
      have h3 : t = i := Option.some.inj h2
      apply (hinv.idle_ok i hi).1
      rw [hq, ← h3]
      exact List.mem_cons_self _ _

/-- Witness for C3: the boot trace through idle registration; the
registered idle thread is not in the ready queue. -/
theorem C3_idle_fallback_selection_witness :
    ∃ s, Kernel.runK Kernel.bootK [.create 1 0, .block, .idleReg] = some s ∧
      (∀ i, s.idleT = some i → i ∉ s.readyq) :=
  ⟨_, rfl, (C3_idle_fallback_selection [.create 1 0, .block, .idleReg] _ rfl).2.1⟩

/-- Counterexample for C4 as frozen: thread_set_priority stores its
argument without clamping or assertion, so calling it with 64 while
PRI_MAX = 63 leaves the running thread's priority field out of range. -/
theorem C4_set_priority_escapes_range :
    ∃ s, Kernel.runK Kernel.bootK [.setPrio 64] = some s ∧
      s.prio s.curr = 64 ∧
      ¬(Kernel.PRI_MIN ≤ s.prio s.curr ∧ s.prio s.curr ≤ Kernel.PRI_MAX) := by
  refine ⟨_, rfl, ?_, ?_⟩
  · decide
  · decide

/-- Claim C4, amended: init_thread asserts its priority argument lies in
[PRI_MIN, PRI_MAX], and provided every thread_set_priority argument lies
in that range, every thread's priority field stays in
[PRI_MIN, PRI_MAX] in every reachable state; thread_set_priority itself
performs no clamping, so an out of range argument escapes the range (see
the counterexample). -/
theorem C4_priority_range (evs : List Kernel.KEv) (s : Kernel.KState)
    (hrun : Kernel.runK Kernel.bootK evs = some s)
    (hargs : ∀ p : Int, Kernel.KEv.setPrio p ∈ evs →
      Kernel.PRI_MIN ≤ p ∧ p ≤ Kernel.PRI_MAX) :
    ∀ t, Kernel.PRI_MIN ≤ s.prio t ∧ s.prio t ≤ Kernel.PRI_MAX :=
  Kernel.runK_prio evs Kernel.bootK s hrun hargs
    (fun _ => ⟨by show Kernel.PRI_MIN ≤ Kernel.PRI_DEFAULT; decide,
      by show Kernel.PRI_DEFAULT ≤ Kernel.PRI_MAX; decide⟩)

/-- Witness for C4: an in range thread_set_priority call keeps every
priority in range. -/
theorem C4_priority_range_witness :
    ∃ s, Kernel.runK Kernel.bootK [.setPrio 63] = some s ∧
      (Kernel.PRI_MIN ≤ s.prio 0 ∧ s.prio 0 ≤ Kernel.PRI_MAX) :=
  ⟨_, rfl, C4_priority_range [.setPrio 63] _ rfl
    (by
      intro p hp
      simp only [List.mem_singleton] at hp
      injection hp with h
      subst h
      exact ⟨by decide, by decide⟩) 0⟩

/-- Claim C5: thread_unblock t hits its fatal assertion exactly when t is
not BLOCKED; when t is BLOCKED it appends t at the tail of the ready
queue, marks t READY, and returns without scheduling: the current thread,
every other thread's status, and in particular the caller's RUNNING
state are unchanged. -/
theorem C5_thread_unblock_contract (s : Kernel.KState) (t : Nat) :
    (s.status t ≠ .blocked → Kernel.thread_unblock t s = none) ∧
    (s.status t = .blocked →
      ∃ s', Kernel.thread_unblock t s = some s' ∧
        s'.readyq = s.readyq ++ [t] ∧ s'.status t = .ready ∧
        s'.curr = s.curr ∧
        (∀ x, x ≠ t → s'.status x = s.status x) ∧
        (s.status s.curr = .running → s'.status s.curr = .running)) := by
  constructor
  · intro h
    unfold Kernel.thread_unblock
    rw [if_neg h]
  · intro h
    refine ⟨Kernel.setStatus { s with readyq := s.readyq ++ [t] } t .ready,
      ?_, rfl, ?_, rfl, ?_, ?_⟩
    · unfold Kernel.thread_unblock
      rw [if_pos h]
    · rw [Kernel.setStatus_status, if_pos rfl]
    · intro x hx
      rw [Kernel.setStatus_status, if_neg hx]
    · intro hc
      have hct : s.curr ≠ t := by
        intro he
        rw [he, h] at hc
        cases hc
      rw [Kernel.setStatus_status, if_neg hct]
      exact hc
